import Mathlib

/-!
Identity mapping cache of `sdk/java/libjfs/guid.go`.

A shallow embedding of the `mapping` type of `guid.go` and of its operations
`genGuid`, `lookupUser`, `lookupGroup`, `lookupUserID`, `lookupGroupID` and
`update`, followed by the properties of the cache.

Modelling choices.

* A Go `string` is a sequence of bytes: `len` counts bytes and `s[:49]` cuts
  bytes, so `GoString` is `List Byte`.
* A Go `int` is the 64-bit signed integer of the platforms the library is
  built for; ids are `Int`, and the two places where the width matters
  (`strconv.Atoi` saturating, `int(uint32(..))` being non-negative) say so.
* A Go `map[K]V` is a partial function `K → Option V`; `m[k] = v` is
  `GoMap.set`, the two-valued read `v, ok := m[k]` is function application.
* The mutex makes every operation atomic; an operation is a function from the
  state before the call to the returned value and the state after it.
* `crypto/md5`, `os/user` and `strconv` are not part of the repository.
  `md5.Sum` is a parameter `md5Sum` of the operations that reach it, the host
  directory (`os/user`) is a record `Host` of four query functions, and
  `strconv.Atoi` / `strconv.Itoa` are written out after the Go library.
-/

namespace Guid

/-! ## Bytes, strings, maps -/

/-- One byte of a Go string. -/
abbrev Byte := Fin 256

/-- Go `string`: a sequence of bytes. -/
abbrev GoString := List Byte

/-- Go `map[K]V` as a partial function. -/
abbrev GoMap (κ ν : Type) := κ → Option ν

/-- The map `make(map[K]V)`: no key is present. -/
def GoMap.empty {κ ν : Type} : GoMap κ ν := fun _ => none

/-- The assignment `m[k] = v`: `k` is added or overwritten, other keys keep
their entry. -/
def GoMap.set {κ ν : Type} [DecidableEq κ] (m : GoMap κ ν) (k : κ) (v : ν) : GoMap κ ν :=
  fun x => if x = k then some v else m x

/-! ## `strconv` -/

/-- Largest `int64`. -/
def maxInt64 : Int := 2 ^ 63 - 1

/-- Smallest `int64`. -/
def minInt64 : Int := -(2 ^ 63)

/-- Outcome of the digit loop of `strconv.ParseUint(s, 10, 64)`. -/
inductive UintResult where
  | ok (n : Nat)
  | badDigit
  | outOfRange
  deriving DecidableEq, Repr

/-- The digit loop of `strconv.ParseUint` in base 10 with 64 bits, started
with accumulator `n`: a byte that is no decimal digit ends the loop with a
format error, an accumulator that would leave `uint64` ends it with a range
error. -/
def parseUintLoop : Nat → List Byte → UintResult
  | n, [] => .ok n
  | n, c :: cs =>
    if 48 ≤ c.val ∧ c.val ≤ 57 then
      if n ≥ (2 ^ 64 - 1) / 10 + 1 then .outOfRange
      else
        let n1 := n * 10 + (c.val - 48)
        if n1 > 2 ^ 64 - 1 then .outOfRange else parseUintLoop n1 cs
    else .badDigit

/-- `strconv.ParseUint(s, 10, 64)` without its values: the empty string is a
format error. -/
def ParseUint (s : GoString) : UintResult :=
  if s = [] then .badDigit else parseUintLoop 0 s

/-- `strconv.Atoi(s)` on a 64-bit platform, as the pair (value, an error
occurred). An optional sign is followed by decimal digits; a format error
yields 0, a value outside `int64` yields the nearest bound, both with an error. -/
def Atoi (s : GoString) : Int × Bool :=
  match s with
  | [] => (0, true)
  | c :: rest =>
    let neg : Bool := c = 45
    let body : GoString := if c = 43 ∨ c = 45 then rest else s
    match ParseUint body with
    | .badDigit => (0, true)
    | .outOfRange => if neg then (minInt64, true) else (maxInt64, true)
    | .ok un =>
      if ¬ neg ∧ un ≥ 2 ^ 63 then (maxInt64, true)
      else if neg ∧ un > 2 ^ 63 then (minInt64, true)
      else if neg then (-(un : Int), false)
      else ((un : Int), false)

/-- The ASCII digit of `d % 10`. -/
def digitByte (d : Nat) : Byte := ⟨48 + d % 10, by omega⟩

/-- Decimal digits of `n`, least significant first, produced as
`strconv.formatBits` does (divide by ten until the value is below ten). The
first argument bounds the number of digits; `n + 1` is always enough. -/
def digitsLE : Nat → Nat → List Byte
  | 0, _ => []
  | fuel + 1, n => if n < 10 then [digitByte n] else digitByte n :: digitsLE fuel (n / 10)

/-- Decimal representation of a natural number, most significant digit first. -/
def formatNat (n : Nat) : GoString := (digitsLE (n + 1) n).reverse

/-- `strconv.Itoa(i)`: the decimal representation of `i`, with a leading `-`
for a negative value. -/
def Itoa (i : Int) : GoString :=
  if i < 0 then (45 : Byte) :: formatNat i.natAbs else formatNat i.natAbs

/-! ## `crypto/md5` and `encoding/binary` -/

/-- The value of `md5.Sum`: `[16]byte`. -/
abbrev Digest := Fin 16 → Byte

/-- The slice `digest[0:8]`. -/
def lowHalf (d : Digest) : Fin 8 → Byte := fun i => d ⟨i.val, by omega⟩

/-- The slice `digest[8:16]`. -/
def highHalf (d : Digest) : Fin 8 → Byte := fun i => d ⟨8 + i.val, by omega⟩

/-- `binary.LittleEndian.Uint64(b)` on an 8-byte slice:
`b[0] | b[1]<<8 | ... | b[7]<<56`. -/
def Uint64 (b : Fin 8 → Byte) : Nat :=
  (b 0).val ||| (b 1).val <<< 8 ||| (b 2).val <<< 16 ||| (b 3).val <<< 24 |||
    (b 4).val <<< 32 ||| (b 5).val <<< 40 ||| (b 6).val <<< 48 ||| (b 7).val <<< 56

/-! ## `os/user` -/

/-- The record `user.User`. -/
structure User where
  Uid : GoString
  Gid : GoString
  Username : GoString
  Name : GoString
  HomeDir : GoString
  deriving DecidableEq

/-- The record `user.Group`. -/
structure Group where
  Gid : GoString
  Name : GoString
  deriving DecidableEq

/-- The host directory: the four queries of `os/user` that the cache makes.
Each returns the pair of Go, a record or nil and an error or nil. -/
structure Host where
  Lookup : GoString → Option User × Option String
  LookupGroup : GoString → Option Group × Option String
  LookupId : GoString → Option User × Option String
  LookupGroupId : GoString → Option Group × Option String

/-! ## The cache -/

/-- A seed entry, `type pwent struct { id int; name string }`. -/
structure pwent where
  id : Int
  name : GoString
  deriving DecidableEq

/-- The cache state, `type mapping struct` without its mutex. -/
structure mapping where
  salt : GoString
  usernames : GoMap GoString Int
  userIDs : GoMap Int GoString
  groups : GoMap GoString Int
  groupIDs : GoMap Int GoString

/-- The state `newMapping` builds before it seeds it: four empty tables. -/
def emptyMapping (salt : GoString) : mapping :=
  { salt := salt, usernames := GoMap.empty, userIDs := GoMap.empty,
    groups := GoMap.empty, groupIDs := GoMap.empty }

/-- `mapping.genGuid`: the two little-endian halves of the digest of
`salt + name + salt` are xored, cut to `uint32` and widened to `int`. -/
def genGuid (md5Sum : GoString → Digest) (m : mapping) (name : GoString) : Int :=
  let digest := md5Sum (m.salt ++ name ++ m.salt)
  let a := Uint64 (lowHalf digest)
  let b := Uint64 (highHalf digest)
  Int.ofNat ((a ^^^ b) % 2 ^ 32)

/-- `mapping.lookupUser`: the returned id and the state after the call. -/
def lookupUser (md5Sum : GoString → Digest) (h : Host) (m : mapping) (name : GoString) :
    Int × mapping :=
  match m.usernames name with
  | some id => (id, m)
  | none =>
    let u := (h.Lookup name).1
    let id : Int :=
      match u with
      | some u => (Atoi u.Uid).1
      | none => genGuid md5Sum m name
    (id, { m with usernames := m.usernames.set name id, userIDs := m.userIDs.set id name })

/-- `mapping.lookupGroup`: the returned value and the state after the call.
After a miss the function ends in `return 0`. -/
def lookupGroup (md5Sum : GoString → Digest) (h : Host) (m : mapping) (name : GoString) :
    Int × mapping :=
  match m.groups name with
  | some id => (id, m)
  | none =>
    let g := (h.LookupGroup name).1
    let id : Int :=
      match g with
      | none => genGuid md5Sum m name
      | some g => (Atoi g.Gid).1
    (0, { m with groups := m.groups.set name id, groupIDs := m.groupIDs.set id name })

/-- The cut `if len(name) > 49 { name = name[:49] }`. -/
def cut49 (name : GoString) : GoString :=
  if name.length > 49 then name.take 49 else name

/-- `mapping.lookupUserID`: the returned name and the state after the call. -/
def lookupUserID (h : Host) (m : mapping) (id : Int) : GoString × mapping :=
  match m.userIDs id with
  | some name => (name, m)
  | none =>
    let u := (h.LookupId (Itoa id)).1
    let username : GoString :=
      match u with
      | none => Itoa id
      | some u => u.Username
    let name := cut49 username
    (name, { m with usernames := m.usernames.set name id, userIDs := m.userIDs.set id name })

/-- `mapping.lookupGroupID`: the returned name and the state after the call. -/
def lookupGroupID (h : Host) (m : mapping) (id : Int) : GoString × mapping :=
  match m.groupIDs id with
  | some name => (name, m)
  | none =>
    let g := (h.LookupGroupId (Itoa id)).1
    let groupname : GoString :=
      match g with
      | none => Itoa id
      | some g => g.Name
    let name := cut49 groupname
    (name, { m with groups := m.groups.set name id, groupIDs := m.groupIDs.set id name })

/-- One iteration of the first loop of `update`. -/
def putUser (m : mapping) (u : pwent) : mapping :=
  { m with usernames := m.usernames.set u.name u.id, userIDs := m.userIDs.set u.id u.name }

/-- One iteration of the second loop of `update`. -/
def putGroup (m : mapping) (g : pwent) : mapping :=
  { m with groups := m.groups.set g.name g.id, groupIDs := m.groupIDs.set g.id g.name }

/-- `mapping.update`: the user entries in order, then the group entries in
order. -/
def update (m : mapping) (uids gids : List pwent) : mapping :=
  gids.foldl putGroup (uids.foldl putUser m)

/-- `newMapping`, with the two enumerations `genAllUids()` and `genAllGids()`
(defined elsewhere in the package) as arguments. -/
def newMapping (salt : GoString) (allUids allGids : List pwent) : mapping :=
  update (emptyMapping salt) allUids allGids

/-! ## Call sequences -/

/-- One call on the cache. A lookup carries the host directory it runs against. -/
inductive Call where
  | update (uids gids : List pwent)
  | lookupUser (h : Host) (name : GoString)
  | lookupGroup (h : Host) (name : GoString)
  | lookupUserID (h : Host) (id : Int)
  | lookupGroupID (h : Host) (id : Int)

/-- The state after one call. -/
def step (md5Sum : GoString → Digest) (m : mapping) : Call → mapping
  | .update uids gids => update m uids gids
  | .lookupUser h name => (lookupUser md5Sum h m name).2
  | .lookupGroup h name => (lookupGroup md5Sum h m name).2
  | .lookupUserID h id => (lookupUserID h m id).2
  | .lookupGroupID h id => (lookupGroupID h m id).2

/-- The state after a sequence of calls. -/
def run (md5Sum : GoString → Digest) (m : mapping) (cs : List Call) : mapping :=
  cs.foldl (step md5Sum) m

/-- A state reachable from an empty table by update and lookup calls. -/
def Reachable (md5Sum : GoString → Digest) (m : mapping) : Prop :=
  ∃ (salt : GoString) (cs : List Call), m = run md5Sum (emptyMapping salt) cs

/-! ## Data of the closed examples -/

/-- A digest function for closed examples: every digest byte is zero. The
examples that refute a statement resolve their names through the host
directory or the cache and never reach the generator. -/
def zeroSum : GoString → Digest := fun _ _ => 0

/-- A user record with the given uid and login name. -/
def mkUser (uid username : GoString) : User :=
  { Uid := uid, Gid := uid, Username := username, Name := [], HomeDir := [] }

/-- A host directory without any account: every query answers nil and an
error. -/
def noHost : Host :=
  { Lookup := fun _ => (none, some "unknown user"),
    LookupGroup := fun _ => (none, some "unknown group"),
    LookupId := fun _ => (none, some "unknown userid"),
    LookupGroupId := fun _ => (none, some "unknown groupid") }

/-- A host directory with the single group `g`, gid 5. -/
def groupHost : Host :=
  { noHost with
    LookupGroup := fun n =>
      if n = [103] then (some { Gid := [53], Name := [103] }, none)
      else (none, some "unknown group"),
    LookupGroupId := fun i =>
      if i = [53] then (some { Gid := [53], Name := [103] }, none)
      else (none, some "unknown groupid") }

/-- A host directory whose four queries fail: each answers nil and an
input/output error. -/
def failingHost : Host :=
  { Lookup := fun _ => (none, some "input/output error"),
    LookupGroup := fun _ => (none, some "input/output error"),
    LookupId := fun _ => (none, some "input/output error"),
    LookupGroupId := fun _ => (none, some "input/output error") }

/-- A host directory of a Windows machine with the single user `w`, whose
uid string is the security identifier `S-1-5-18`. -/
def sidHost : Host :=
  { noHost with
    Lookup := fun n =>
      if n = [119] then (some (mkUser [83, 45, 49, 45, 53, 45, 49, 56] [119]), none)
      else (none, some "unknown user") }

/-- A login name of 50 bytes, fifty times the letter `a`. -/
def longName : GoString := List.replicate 50 97

/-- A host directory with the single user `longName`, uid 7. -/
def longHost : Host :=
  { noHost with
    Lookup := fun n =>
      if n = longName then (some (mkUser [55] longName), none) else (none, some "unknown user"),
    LookupId := fun i =>
      if i = [55] then (some (mkUser [55] longName), none) else (none, some "unknown userid") }

/-- A host directory with two users `a` and `b` that share uid 1; a query by
id answers with `a`. -/
def twinHost : Host :=
  { noHost with
    Lookup := fun n =>
      if n = [97] then (some (mkUser [49] [97]), none)
      else if n = [98] then (some (mkUser [49] [98]), none)
      else (none, some "unknown user"),
    LookupId := fun i =>
      if i = [49] then (some (mkUser [49] [97]), none) else (none, some "unknown userid") }

/-- A host directory with the single user whose login name is `5` and whose
uid is 9. -/
def numHost : Host :=
  { noHost with
    Lookup := fun n =>
      if n = [53] then (some (mkUser [57] [53]), none) else (none, some "unknown user"),
    LookupId := fun i =>
      if i = [57] then (some (mkUser [57] [53]), none) else (none, some "unknown userid") }

/-- Two seed entries `(1, a)` and `(1, b)` with the same id. -/
def sameIdSeeds : List pwent := [⟨1, [97]⟩, ⟨1, [98]⟩]

/-- Two seed entries `(1, a)` and `(2, a)` with the same name. -/
def sameNameSeeds : List pwent := [⟨1, [97]⟩, ⟨2, [97]⟩]

/-! ## Notions used by the statements -/

/-- The id `lookupUser` computes on a miss. -/
def userIdOnMiss (md5Sum : GoString → Digest) (h : Host) (m : mapping) (name : GoString) : Int :=
  match (h.Lookup name).1 with
  | some u => (Atoi u.Uid).1
  | none => genGuid md5Sum m name

/-- The id `lookupGroup` computes and records on a miss. -/
def groupIdOnMiss (md5Sum : GoString → Digest) (h : Host) (m : mapping) (name : GoString) : Int :=
  match (h.LookupGroup name).1 with
  | none => genGuid md5Sum m name
  | some g => (Atoi g.Gid).1

/-- The name `lookupUserID` computes on a miss. -/
def userNameOnMiss (h : Host) (id : Int) : GoString :=
  cut49 (match (h.LookupId (Itoa id)).1 with
    | none => Itoa id
    | some u => u.Username)

/-- The name `lookupGroupID` computes on a miss. -/
def groupNameOnMiss (h : Host) (id : Int) : GoString :=
  cut49 (match (h.LookupGroupId (Itoa id)).1 with
    | none => Itoa id
    | some g => g.Name)

/-- The link every write keeps between a forward table and its reverse table:
an id recorded for a name is a key of the reverse table, and a name recorded
for an id is a key of the forward table. -/
def Linked (fwd : GoMap GoString Int) (rev : GoMap Int GoString) : Prop :=
  (∀ n i, fwd n = some i → ∃ n', rev i = some n') ∧
    (∀ i n, rev i = some n → ∃ j, fwd n = some j)

/-- Both identity classes are linked. -/
def Inv (m : mapping) : Prop :=
  Linked m.usernames m.userIDs ∧ Linked m.groups m.groupIDs

/-- A lookup call: every call but `update`. -/
def isLookup : Call → Bool
  | .update _ _ => false
  | _ => true

/-- A call in state `m` that binds the user name `n` to an id other than `i`:
a `lookupUserID` of an id other than `i` that misses the cache and resolves to
the name `n`. -/
def rebinds (n : GoString) (i : Int) (m : mapping) : Call → Bool
  | .lookupUserID h id =>
    (m.userIDs id).isNone && decide (id ≠ i) && decide ((lookupUserID h m id).1 = n)
  | _ => false

/-- No call of the sequence, run from `m`, binds the user name `n` to an id
other than `i`. -/
def keepsName (md5Sum : GoString → Digest) (n : GoString) (i : Int) :
    mapping → List Call → Bool
  | _, [] => true
  | m, c :: cs => !rebinds n i m c && keepsName md5Sum n i (step md5Sum m c) cs

/-- The value of a byte sequence read as a little-endian number: the sum of
`b[i] * 256 ^ i`. -/
def leValue : List Byte → Nat
  | [] => 0
  | b :: bs => b.val + 256 * leValue bs

/-- The generator as the specification words it: the digest of
`salt ++ name ++ salt` is split into the two halves `d[0..8]` and `d[8..16]`,
each read as a little-endian number; the two are xored and the low 32 bits
are the id, a non-negative integer. -/
def specGuid (md5Sum : GoString → Digest) (salt name : GoString) : Int :=
  let d : List Byte := List.ofFn (md5Sum (salt ++ name ++ salt))
  Int.ofNat ((leValue (d.take 8) ^^^ leValue ((d.drop 8).take 8)) % 2 ^ 32)

/-- The name of the last entry of the list that carries the id, if there is
one. -/
def lastNameOf (uids : List pwent) (id : Int) : Option GoString :=
  (uids.reverse.find? (fun u => decide (u.id = id))).map (fun u => u.name)

/-- Every key of each of the four tables of `m` is a key of the same table
of `m'`. -/
def KeysKept (m m' : mapping) : Prop :=
  (∀ n, m.usernames n ≠ none → m'.usernames n ≠ none) ∧
    (∀ i, m.userIDs i ≠ none → m'.userIDs i ≠ none) ∧
    (∀ n, m.groups n ≠ none → m'.groups n ≠ none) ∧
    (∀ i, m.groupIDs i ≠ none → m'.groupIDs i ≠ none)

/-- The id of the last entry of the list that carries the name, if there is
one. -/
def lastIdOf (uids : List pwent) (name : GoString) : Option Int :=
  (uids.reverse.find? (fun u => decide (u.name = name))).map (fun u => u.id)

/-- The state with the user tables and the group tables exchanged. -/
def swapTables (m : mapping) : mapping :=
  { salt := m.salt, usernames := m.groups, userIDs := m.groupIDs,
    groups := m.usernames, groupIDs := m.userIDs }

/-- A group record read as a user record: the group name stands as the
username. -/
def groupAsUser (g : Group) : User :=
  { Uid := g.Gid, Gid := g.Gid, Username := g.Name, Name := [], HomeDir := [] }

/-- The host directory whose user-by-id query is the group-by-id query of
`h`. -/
def groupsAsUsers (h : Host) : Host :=
  { h with
    LookupId := fun i => ((h.LookupGroupId i).1.map groupAsUser, (h.LookupGroupId i).2) }

/-- The 32-bit reading of a digest: the little-endian value of the bytes
`d[0..4]` xored with the little-endian value of the bytes `d[8..12]`. -/
def guid32 (d : Digest) : Nat :=
  leValue ((List.ofFn d).take 4) ^^^ leValue (((List.ofFn d).drop 8).take 4)

/-- The byte is an ASCII decimal digit. -/
def isDigit (b : Byte) : Bool := decide (48 ≤ b.val ∧ b.val ≤ 57)

/-- The number that the digits of `s`, most significant first, denote when
they continue the number `acc`. -/
def decimalFrom (acc : Nat) (s : GoString) : Nat :=
  s.foldl (fun a b => a * 10 + (b.val - 48)) acc

/-- The number a sequence of decimal digits, most significant first,
denotes. -/
def decimalValue (s : GoString) : Nat := decimalFrom 0 s

/-- The bytes of a numeral after its optional leading sign `+` or `-`. -/
def unsignedPart (s : GoString) : GoString :=
  match s with
  | [] => []
  | c :: rest => if c = 43 ∨ c = 45 then rest else s

/-- The pairs a call writes to the user tables, in the order it writes them:
`update` writes its user entries, a `lookupUser` or `lookupUserID` that misses
the cache writes the pair it resolved, every other call writes none. -/
def userWrites (md5Sum : GoString → Digest) (m : mapping) : Call → List pwent
  | .update uids _ => uids
  | .lookupUser h name =>
    match m.usernames name with
    | some _ => []
    | none => [⟨userIdOnMiss md5Sum h m name, name⟩]
  | .lookupUserID h id =>
    match m.userIDs id with
    | some _ => []
    | none => [⟨id, userNameOnMiss h id⟩]
  | _ => []

/-- The pairs a call writes to the group tables, in the order it writes them:
`update` writes its group entries, a `lookupGroup` or `lookupGroupID` that
misses the cache writes the pair it resolved, every other call writes none. -/
def groupWrites (md5Sum : GoString → Digest) (m : mapping) : Call → List pwent
  | .update _ gids => gids
  | .lookupGroup h name =>
    match m.groups name with
    | some _ => []
    | none => [⟨groupIdOnMiss md5Sum h m name, name⟩]
  | .lookupGroupID h id =>
    match m.groupIDs id with
    | some _ => []
    | none => [⟨id, groupNameOnMiss h id⟩]
  | _ => []

/-- The pairs written to the user tables by a sequence of calls run from `m`,
oldest first. -/
def userLog (md5Sum : GoString → Digest) : mapping → List Call → List pwent
  | _, [] => []
  | m, c :: cs => userWrites md5Sum m c ++ userLog md5Sum (step md5Sum m c) cs

/-- The pairs written to the group tables by a sequence of calls run from
`m`, oldest first. -/
def groupLog (md5Sum : GoString → Digest) : mapping → List Call → List pwent
  | _, [] => []
  | m, c :: cs => groupWrites md5Sum m c ++ groupLog md5Sum (step md5Sum m c) cs

/-- The string is an optionally signed, non-empty sequence of decimal
digits. -/
def isNumeral (s : GoString) : Bool :=
  !(unsignedPart s).isEmpty && (unsignedPart s).all isDigit

/-- The decimal digits at the start of the unsigned part of the string, up to
its first byte that is no digit. -/
def leadingDigits (s : GoString) : GoString := (unsignedPart s).takeWhile isDigit

/-! ## Reading a table after a write -/

theorem goMap_set_same {κ ν : Type} [DecidableEq κ] (m : GoMap κ ν) (k : κ) (v : ν) :
    (m.set k v) k = some v := by
  simp [GoMap.set]

theorem goMap_set_other {κ ν : Type} [DecidableEq κ] (m : GoMap κ ν) {k x : κ} (v : ν)
    (hx : x ≠ k) : (m.set k v) x = m x := by
  simp [GoMap.set, hx]

theorem goMap_set_ne_none {κ ν : Type} [DecidableEq κ] (m : GoMap κ ν) (k x : κ) (v : ν)
    (hx : m x ≠ none) : (m.set k v) x ≠ none := by
  unfold GoMap.set
  split
  · simp
  · exact hx

/-! ## The four lookups, hit and miss -/

theorem lookupUser_hit (md5Sum : GoString → Digest) (h : Host) (m : mapping)
    (name : GoString) (id : Int) (hc : m.usernames name = some id) :
    lookupUser md5Sum h m name = (id, m) := by
  simp [lookupUser, hc]

theorem lookupGroup_hit (md5Sum : GoString → Digest) (h : Host) (m : mapping)
    (name : GoString) (id : Int) (hc : m.groups name = some id) :
    lookupGroup md5Sum h m name = (id, m) := by
  simp [lookupGroup, hc]

theorem lookupUserID_hit (h : Host) (m : mapping) (id : Int) (name : GoString)
    (hc : m.userIDs id = some name) : lookupUserID h m id = (name, m) := by
  simp [lookupUserID, hc]

theorem lookupGroupID_hit (h : Host) (m : mapping) (id : Int) (name : GoString)
    (hc : m.groupIDs id = some name) : lookupGroupID h m id = (name, m) := by
  simp [lookupGroupID, hc]

theorem lookupUser_miss (md5Sum : GoString → Digest) (h : Host) (m : mapping)
    (name : GoString) (hc : m.usernames name = none) :
    lookupUser md5Sum h m name =
      (userIdOnMiss md5Sum h m name,
        { m with usernames := m.usernames.set name (userIdOnMiss md5Sum h m name),
                 userIDs := m.userIDs.set (userIdOnMiss md5Sum h m name) name }) := by
  simp [lookupUser, hc, userIdOnMiss]

theorem lookupGroup_miss (md5Sum : GoString → Digest) (h : Host) (m : mapping)
    (name : GoString) (hc : m.groups name = none) :
    lookupGroup md5Sum h m name =
      (0,
        { m with groups := m.groups.set name (groupIdOnMiss md5Sum h m name),
                 groupIDs := m.groupIDs.set (groupIdOnMiss md5Sum h m name) name }) := by
  simp [lookupGroup, hc, groupIdOnMiss]

theorem lookupUserID_miss (h : Host) (m : mapping) (id : Int) (hc : m.userIDs id = none) :
    lookupUserID h m id =
      (userNameOnMiss h id,
        { m with usernames := m.usernames.set (userNameOnMiss h id) id,
                 userIDs := m.userIDs.set id (userNameOnMiss h id) }) := by
  simp [lookupUserID, hc, userNameOnMiss]

theorem lookupGroupID_miss (h : Host) (m : mapping) (id : Int) (hc : m.groupIDs id = none) :
    lookupGroupID h m id =
      (groupNameOnMiss h id,
        { m with groups := m.groups.set (groupNameOnMiss h id) id,
                 groupIDs := m.groupIDs.set id (groupNameOnMiss h id) }) := by
  simp [lookupGroupID, hc, groupNameOnMiss]

/-! ## C1: what `lookupGroup` returns -/

/-- C1. On a cache miss `lookupGroup` records the resolved id for the name in
`groups` (the gid of the host, or `genGuid name` when the host has no such
group) and returns 0, not the id it recorded. -/
theorem lookupGroup_miss_returns_zero (md5Sum : GoString → Digest) (h : Host) (m : mapping)
    (name : GoString) (hc : m.groups name = none) :
    (lookupGroup md5Sum h m name).1 = 0 ∧
      (lookupGroup md5Sum h m name).2.groups name = some (groupIdOnMiss md5Sum h m name) := by
  rw [lookupGroup_miss md5Sum h m name hc]
  exact ⟨rfl, goMap_set_same _ _ _⟩

/-- C1 at a concrete input: with empty tables and a host whose group `g` has
gid 5, `lookupGroup "g"` returns 0 and leaves `groups["g"] = 5`. -/
theorem lookupGroup_miss_returns_zero_witness :
    (emptyMapping []).groups [103] = none ∧
      groupIdOnMiss zeroSum groupHost (emptyMapping []) [103] = 5 ∧
      (lookupGroup zeroSum groupHost (emptyMapping []) [103]).1 = 0 ∧
      (lookupGroup zeroSum groupHost (emptyMapping []) [103]).2.groups [103] =
        some (groupIdOnMiss zeroSum groupHost (emptyMapping []) [103]) :=
  ⟨rfl, by decide, lookupGroup_miss_returns_zero zeroSum groupHost (emptyMapping []) [103] rfl⟩

/-! ## The link between a forward and a reverse table -/

theorem linked_empty : Linked GoMap.empty GoMap.empty := by
  constructor <;> intro a b hab <;> simp [GoMap.empty] at hab

theorem linked_set {fwd : GoMap GoString Int} {rev : GoMap Int GoString}
    (hl : Linked fwd rev) (n : GoString) (i : Int) : Linked (fwd.set n i) (rev.set i n) := by
  obtain ⟨h1, h2⟩ := hl
  constructor
  · intro x j hx
    by_cases hj : j = i
    · exact ⟨n, by simp [GoMap.set, hj]⟩
    · have hxn : x ≠ n := by
        intro hxn
        simp [GoMap.set, hxn] at hx
        exact hj hx.symm
      rw [goMap_set_other _ _ hxn] at hx
      obtain ⟨n', hn'⟩ := h1 x j hx
      exact ⟨n', by rw [goMap_set_other _ _ hj]; exact hn'⟩
  · intro j x hj
    by_cases hx : x = n
    · exact ⟨i, by simp [GoMap.set, hx]⟩
    · have hji : j ≠ i := by
        intro hji
        simp [GoMap.set, hji] at hj
        exact hx hj.symm
      rw [goMap_set_other _ _ hji] at hj
      obtain ⟨k, hk⟩ := h2 j x hj
      exact ⟨k, by rw [goMap_set_other _ _ hx]; exact hk⟩

theorem inv_emptyMapping (salt : GoString) : Inv (emptyMapping salt) :=
  ⟨linked_empty, linked_empty⟩

theorem inv_putUser {m : mapping} (hm : Inv m) (u : pwent) : Inv (putUser m u) :=
  ⟨linked_set hm.1 u.name u.id, hm.2⟩

theorem inv_putGroup {m : mapping} (hm : Inv m) (g : pwent) : Inv (putGroup m g) :=
  ⟨hm.1, linked_set hm.2 g.name g.id⟩

theorem inv_foldl_putUser (uids : List pwent) {m : mapping} (hm : Inv m) :
    Inv (uids.foldl putUser m) := by
  induction uids generalizing m with
  | nil => exact hm
  | cons u us ih => exact ih (inv_putUser hm u)

theorem inv_foldl_putGroup (gids : List pwent) {m : mapping} (hm : Inv m) :
    Inv (gids.foldl putGroup m) := by
  induction gids generalizing m with
  | nil => exact hm
  | cons g gs ih => exact ih (inv_putGroup hm g)

theorem inv_update {m : mapping} (hm : Inv m) (uids gids : List pwent) :
    Inv (update m uids gids) :=
  inv_foldl_putGroup gids (inv_foldl_putUser uids hm)

theorem inv_lookupUser {m : mapping} (hm : Inv m) (md5Sum : GoString → Digest) (h : Host)
    (name : GoString) : Inv (lookupUser md5Sum h m name).2 := by
  cases hc : m.usernames name with
  | some id => rw [lookupUser_hit md5Sum h m name id hc]; exact hm
  | none => rw [lookupUser_miss md5Sum h m name hc]; exact ⟨linked_set hm.1 _ _, hm.2⟩

theorem inv_lookupGroup {m : mapping} (hm : Inv m) (md5Sum : GoString → Digest) (h : Host)
    (name : GoString) : Inv (lookupGroup md5Sum h m name).2 := by
  cases hc : m.groups name with
  | some id => rw [lookupGroup_hit md5Sum h m name id hc]; exact hm
  | none => rw [lookupGroup_miss md5Sum h m name hc]; exact ⟨hm.1, linked_set hm.2 _ _⟩

theorem inv_lookupUserID {m : mapping} (hm : Inv m) (h : Host) (id : Int) :
    Inv (lookupUserID h m id).2 := by
  cases hc : m.userIDs id with
  | some name => rw [lookupUserID_hit h m id name hc]; exact hm
  | none => rw [lookupUserID_miss h m id hc]; exact ⟨linked_set hm.1 _ _, hm.2⟩

theorem inv_lookupGroupID {m : mapping} (hm : Inv m) (h : Host) (id : Int) :
    Inv (lookupGroupID h m id).2 := by
  cases hc : m.groupIDs id with
  | some name => rw [lookupGroupID_hit h m id name hc]; exact hm
  | none => rw [lookupGroupID_miss h m id hc]; exact ⟨hm.1, linked_set hm.2 _ _⟩

theorem inv_step {m : mapping} (hm : Inv m) (md5Sum : GoString → Digest) (c : Call) :
    Inv (step md5Sum m c) := by
  cases c with
  | update uids gids => exact inv_update hm uids gids
  | lookupUser h name => exact inv_lookupUser hm md5Sum h name
  | lookupGroup h name => exact inv_lookupGroup hm md5Sum h name
  | lookupUserID h id => exact inv_lookupUserID hm h id
  | lookupGroupID h id => exact inv_lookupGroupID hm h id

theorem inv_run (md5Sum : GoString → Digest) (cs : List Call) {m : mapping} (hm : Inv m) :
    Inv (run md5Sum m cs) := by
  induction cs generalizing m with
  | nil => exact hm
  | cons c cs ih => exact ih (inv_step hm md5Sum c)

theorem inv_of_reachable {md5Sum : GoString → Digest} {m : mapping}
    (hm : Reachable md5Sum m) : Inv m := by
  obtain ⟨salt, cs, rfl⟩ := hm
  exact inv_run md5Sum cs (inv_emptyMapping salt)

/-! ## C2: a name resolved to an id and back -/

/-- C2, as stated, fails, in two ways. From the empty table and a host whose
user `longName` (50 bytes) has uid 7, `lookupUser longName` returns 7 and the
following `lookupUserID 7` returns all 50 bytes, not the first 49. After
`update [(1, a), (1, b)]`, `lookupUser a` returns 1 and the following
`lookupUserID 1` returns `b`. -/
theorem name_id_name_counterexample :
    (Reachable zeroSum (emptyMapping []) ∧
      (lookupUser zeroSum longHost (emptyMapping []) longName).1 = 7 ∧
      49 < longName.length ∧
      (lookupUserID longHost (lookupUser zeroSum longHost (emptyMapping []) longName).2 7).1
        = longName ∧
      longName ≠ longName.take 49) ∧
    (Reachable zeroSum (run zeroSum (emptyMapping []) [Call.update sameIdSeeds []]) ∧
      (lookupUser zeroSum noHost
        (run zeroSum (emptyMapping []) [Call.update sameIdSeeds []]) [97]).1 = 1 ∧
      (lookupUserID noHost (lookupUser zeroSum noHost
        (run zeroSum (emptyMapping []) [Call.update sameIdSeeds []]) [97]).2 1).1 = [98] ∧
      ([97] : GoString).length ≤ 49) := by
  refine ⟨⟨⟨[], [], rfl⟩, ?_⟩, ⟨⟨[], [Call.update sameIdSeeds []], rfl⟩, ?_⟩⟩
  · decide
  · decide

/-- C2, amended. For every reachable state, all host directories and every
name `n`: when `lookupUser n` returns `i`, the table `userIDs` then holds a name
for `i` and an immediately following `lookupUserID i` returns that name. It is
`n` itself, in full and whatever its length, when `n` was not a key of
`usernames` before the call or when `userIDs[i] = n` held before the call. -/
theorem name_id_name (md5Sum : GoString → Digest) (h h' : Host) (m : mapping)
    (n : GoString) (hm : Reachable md5Sum m) :
    ∃ n', (lookupUser md5Sum h m n).2.userIDs (lookupUser md5Sum h m n).1 = some n' ∧
      (lookupUserID h' (lookupUser md5Sum h m n).2 (lookupUser md5Sum h m n).1).1 = n' ∧
      (m.usernames n = none → n' = n) ∧
      (m.userIDs (lookupUser md5Sum h m n).1 = some n → n' = n) := by
  have hinv := inv_of_reachable hm
  cases hc : m.usernames n with
  | some i =>
    obtain ⟨n', hn'⟩ := hinv.1.1 n i hc
    rw [lookupUser_hit md5Sum h m n i hc]
    refine ⟨n', hn', ?_, ?_, ?_⟩
    · rw [lookupUserID_hit h' m i n' hn']
    · intro hcontra; cases hcontra
    · intro hn
      simp only [hn'] at hn
      exact Option.some.inj hn
  | none =>
    rw [lookupUser_miss md5Sum h m n hc]
    have hrec : (GoMap.set m.userIDs (userIdOnMiss md5Sum h m n) n)
        (userIdOnMiss md5Sum h m n) = some n := goMap_set_same _ _ _
    refine ⟨n, hrec, ?_, fun _ => rfl, fun _ => rfl⟩
    rw [lookupUserID_hit h' _ _ n hrec]

/-- C2, amended, at a concrete input: the 50-byte name against `longHost`. -/
theorem name_id_name_witness :
    ∃ n', (lookupUser zeroSum longHost (emptyMapping []) longName).2.userIDs
          (lookupUser zeroSum longHost (emptyMapping []) longName).1 = some n' ∧
      (lookupUserID noHost (lookupUser zeroSum longHost (emptyMapping []) longName).2
          (lookupUser zeroSum longHost (emptyMapping []) longName).1).1 = n' ∧
      ((emptyMapping []).usernames longName = none → n' = longName) ∧
      ((emptyMapping []).userIDs (lookupUser zeroSum longHost (emptyMapping []) longName).1
          = some longName → n' = longName) :=
  name_id_name zeroSum longHost noHost (emptyMapping []) longName ⟨[], [], rfl⟩

/-! ## C3: what a `lookupUser` call leaves in the tables -/

/-- C3, as stated, fails on a cache hit. After `lookupUser a` and
`lookupUser b` against a host on which both users have uid 1, the state is
reachable, `lookupUser a` returns 1 and leaves `userIDs[1] = b`. -/
theorem cache_population_counterexample :
    Reachable zeroSum (run zeroSum (emptyMapping [])
        [Call.lookupUser twinHost [97], Call.lookupUser twinHost [98]]) ∧
      (lookupUser zeroSum twinHost (run zeroSum (emptyMapping [])
        [Call.lookupUser twinHost [97], Call.lookupUser twinHost [98]]) [97]).1 = 1 ∧
      (lookupUser zeroSum twinHost (run zeroSum (emptyMapping [])
        [Call.lookupUser twinHost [97], Call.lookupUser twinHost [98]]) [97]).2.usernames [97]
        = some 1 ∧
      (lookupUser zeroSum twinHost (run zeroSum (emptyMapping [])
        [Call.lookupUser twinHost [97], Call.lookupUser twinHost [98]]) [97]).2.userIDs 1
        = some [98] := by
  refine ⟨⟨[], [Call.lookupUser twinHost [97], Call.lookupUser twinHost [98]], rfl⟩, ?_⟩
  decide

/-- C3, amended. For every reachable state, every host directory and every
name `n`: after `lookupUser n` returns `i` the state satisfies
`usernames[n] = i` and `userIDs` has an entry for `i`. That entry is `n` when
the call was a cache miss; a cache hit leaves all tables as they were, so the
entry is the name `userIDs` held for `i` before the call. -/
theorem cache_population (md5Sum : GoString → Digest) (h : Host) (m : mapping)
    (n : GoString) (hm : Reachable md5Sum m) :
    (lookupUser md5Sum h m n).2.usernames n = some (lookupUser md5Sum h m n).1 ∧
      (∃ n', (lookupUser md5Sum h m n).2.userIDs (lookupUser md5Sum h m n).1 = some n') ∧
      (m.usernames n = none →
        (lookupUser md5Sum h m n).2.userIDs (lookupUser md5Sum h m n).1 = some n) ∧
      (m.usernames n ≠ none → (lookupUser md5Sum h m n).2 = m) := by
  have hinv := inv_of_reachable hm
  cases hc : m.usernames n with
  | some i =>
    rw [lookupUser_hit md5Sum h m n i hc]
    exact ⟨hc, hinv.1.1 n i hc, fun hcontra => (by cases hcontra), fun _ => rfl⟩
  | none =>
    rw [lookupUser_miss md5Sum h m n hc]
    exact ⟨goMap_set_same _ _ _, ⟨n, goMap_set_same _ _ _⟩, fun _ => goMap_set_same _ _ _,
      fun hcontra => absurd rfl hcontra⟩

/-- C3, amended, at a concrete input: a miss on `a` against `twinHost` from
the empty table. -/
theorem cache_population_witness :
    (lookupUser zeroSum twinHost (emptyMapping []) [97]).2.usernames [97]
        = some (lookupUser zeroSum twinHost (emptyMapping []) [97]).1 ∧
      (∃ n', (lookupUser zeroSum twinHost (emptyMapping []) [97]).2.userIDs
        (lookupUser zeroSum twinHost (emptyMapping []) [97]).1 = some n') ∧
      ((emptyMapping []).usernames [97] = none →
        (lookupUser zeroSum twinHost (emptyMapping []) [97]).2.userIDs
          (lookupUser zeroSum twinHost (emptyMapping []) [97]).1 = some [97]) ∧
      ((emptyMapping []).usernames [97] ≠ none →
        (lookupUser zeroSum twinHost (emptyMapping []) [97]).2 = emptyMapping []) :=
  cache_population zeroSum twinHost (emptyMapping []) [97] ⟨[], [], rfl⟩

/-! ## C5: the same lookup twice in a row -/

theorem lookupUser_twice (md5Sum : GoString → Digest) (h h' : Host) (m : mapping)
    (x : GoString) :
    lookupUser md5Sum h' (lookupUser md5Sum h m x).2 x = lookupUser md5Sum h m x := by
  cases hc : m.usernames x with
  | some i => rw [lookupUser_hit md5Sum h m x i hc, lookupUser_hit md5Sum h' m x i hc]
  | none =>
    rw [lookupUser_miss md5Sum h m x hc]
    exact lookupUser_hit md5Sum h' _ x _ (goMap_set_same _ _ _)

theorem lookupUserID_twice (h h' : Host) (m : mapping) (id : Int) :
    lookupUserID h' (lookupUserID h m id).2 id = lookupUserID h m id := by
  cases hc : m.userIDs id with
  | some n => rw [lookupUserID_hit h m id n hc, lookupUserID_hit h' m id n hc]
  | none =>
    rw [lookupUserID_miss h m id hc]
    exact lookupUserID_hit h' _ id _ (goMap_set_same _ _ _)

theorem lookupGroupID_twice (h h' : Host) (m : mapping) (id : Int) :
    lookupGroupID h' (lookupGroupID h m id).2 id = lookupGroupID h m id := by
  cases hc : m.groupIDs id with
  | some n => rw [lookupGroupID_hit h m id n hc, lookupGroupID_hit h' m id n hc]
  | none =>
    rw [lookupGroupID_miss h m id hc]
    exact lookupGroupID_hit h' _ id _ (goMap_set_same _ _ _)

theorem lookupGroup_twice_state (md5Sum : GoString → Digest) (h h' : Host) (m : mapping)
    (x : GoString) :
    (lookupGroup md5Sum h' (lookupGroup md5Sum h m x).2 x).2 = (lookupGroup md5Sum h m x).2 := by
  cases hc : m.groups x with
  | some i => rw [lookupGroup_hit md5Sum h m x i hc, lookupGroup_hit md5Sum h' m x i hc]
  | none =>
    rw [lookupGroup_miss md5Sum h m x hc]
    rw [lookupGroup_hit md5Sum h' _ x _ (goMap_set_same _ _ _)]

/-- C5. Calling `lookupUser`, `lookupUserID` or `lookupGroupID` twice in a row
with the same input returns the same value and the same four tables both
times, and the second `lookupGroup` leaves the tables as the first left them.
The two values of `lookupGroup` differ: with empty tables and a host whose
group `g` has gid 5, the first `lookupGroup "g"` returns 0 and the second
returns 5. -/
theorem lookup_twice :
    (∀ (md5Sum : GoString → Digest) (h h' : Host) (m : mapping) (x : GoString),
        lookupUser md5Sum h' (lookupUser md5Sum h m x).2 x = lookupUser md5Sum h m x) ∧
      (∀ (h h' : Host) (m : mapping) (id : Int),
        lookupUserID h' (lookupUserID h m id).2 id = lookupUserID h m id) ∧
      (∀ (h h' : Host) (m : mapping) (id : Int),
        lookupGroupID h' (lookupGroupID h m id).2 id = lookupGroupID h m id) ∧
      (∀ (md5Sum : GoString → Digest) (h h' : Host) (m : mapping) (x : GoString),
        (lookupGroup md5Sum h' (lookupGroup md5Sum h m x).2 x).2
          = (lookupGroup md5Sum h m x).2) ∧
      ((lookupGroup zeroSum groupHost (emptyMapping []) [103]).1 = 0 ∧
        (lookupGroup zeroSum groupHost
          (lookupGroup zeroSum groupHost (emptyMapping []) [103]).2 [103]).1 = 5) :=
  ⟨lookupUser_twice, lookupUserID_twice, lookupGroupID_twice, lookupGroup_twice_state,
    by decide⟩

/-! ## C6: the id of a name along later lookups -/

theorem step_keeps_username (md5Sum : GoString → Digest) (n : GoString) (i : Int)
    (m : mapping) (c : Call) (hn : m.usernames n = some i) (hc : isLookup c = true)
    (hr : rebinds n i m c = false) : (step md5Sum m c).usernames n = some i := by
  cases c with
  | update uids gids => simp [isLookup] at hc
  | lookupUser h x =>
    show (lookupUser md5Sum h m x).2.usernames n = some i
    cases hx : m.usernames x with
    | some j => rw [lookupUser_hit md5Sum h m x j hx]; exact hn
    | none =>
      rw [lookupUser_miss md5Sum h m x hx]
      have hne : n ≠ x := by
        intro hnx
        rw [hnx, hx] at hn
        cases hn
      show (GoMap.set m.usernames x _) n = some i
      rw [goMap_set_other _ _ hne]
      exact hn
  | lookupGroup h x =>
    show (lookupGroup md5Sum h m x).2.usernames n = some i
    cases hx : m.groups x with
    | some j => rw [lookupGroup_hit md5Sum h m x j hx]; exact hn
    | none => rw [lookupGroup_miss md5Sum h m x hx]; exact hn
  | lookupGroupID h id =>
    show (lookupGroupID h m id).2.usernames n = some i
    cases hx : m.groupIDs id with
    | some j => rw [lookupGroupID_hit h m id j hx]; exact hn
    | none => rw [lookupGroupID_miss h m id hx]; exact hn
  | lookupUserID h id =>
    show (lookupUserID h m id).2.usernames n = some i
    cases hx : m.userIDs id with
    | some j => rw [lookupUserID_hit h m id j hx]; exact hn
    | none =>
      have hres : (lookupUserID h m id).1 = userNameOnMiss h id := by
        rw [lookupUserID_miss h m id hx]
      rw [lookupUserID_miss h m id hx]
      show (GoMap.set m.usernames (userNameOnMiss h id) id) n = some i
      by_cases hnm : n = userNameOnMiss h id
      · have hid : id = i := by
          by_contra hne
          simp [rebinds, hx, hne, hres, hnm] at hr
        rw [hnm, hid]
        exact goMap_set_same _ _ _
      · rw [goMap_set_other _ _ hnm]
        exact hn

theorem run_keeps_username (md5Sum : GoString → Digest) (n : GoString) (i : Int)
    (cs : List Call) (m : mapping) (hn : m.usernames n = some i)
    (hcs : ∀ c ∈ cs, isLookup c = true) (hk : keepsName md5Sum n i m cs = true) :
    (run md5Sum m cs).usernames n = some i := by
  induction cs generalizing m with
  | nil => exact hn
  | cons c cs ih =>
    simp only [keepsName, Bool.and_eq_true, Bool.not_eq_true'] at hk
    have hstep := step_keeps_username md5Sum n i m c hn (hcs c (List.mem_cons_self _ _)) hk.1
    exact ih (step md5Sum m c) hstep (fun c' hc' => hcs c' (List.mem_cons_of_mem _ hc')) hk.2

/-- C6, as stated, fails. Against the fixed host `numHost`, whose only user
has the login name `5` and uid 9, `lookupUser "5"` returns 9 from the empty
table; the intervening `lookupUserID 5` finds no account with uid 5, names it
`5` and records `usernames["5"] = 5`; the later `lookupUser "5"` returns 5. -/
theorem stable_id_counterexample :
    (lookupUser zeroSum numHost (emptyMapping []) [53]).1 = 9 ∧
      (lookupUser zeroSum numHost
        (run zeroSum (lookupUser zeroSum numHost (emptyMapping []) [53]).2
          [Call.lookupUserID numHost 5]) [53]).1 = 5 := by
  decide

/-- C6, amended. For every state, name `n` and host directories: once
`lookupUser n` has returned `i`, every later `lookupUser n` returns `i` after
any intervening sequence of `lookupUser`, `lookupGroup`, `lookupUserID` and
`lookupGroupID` calls (no `update`), provided no intervening `lookupUserID j`
with `j ≠ i` misses the cache and resolves to the name `n`. -/
theorem stable_id (md5Sum : GoString → Digest) (h h' : Host) (m : mapping) (n : GoString)
    (cs : List Call) (hcs : ∀ c ∈ cs, isLookup c = true)
    (hk : keepsName md5Sum n (lookupUser md5Sum h m n).1 (lookupUser md5Sum h m n).2 cs = true) :
    (lookupUser md5Sum h' (run md5Sum (lookupUser md5Sum h m n).2 cs) n).1
      = (lookupUser md5Sum h m n).1 := by
  have hfirst : (lookupUser md5Sum h m n).2.usernames n = some (lookupUser md5Sum h m n).1 := by
    cases hc : m.usernames n with
    | some i => rw [lookupUser_hit md5Sum h m n i hc]; exact hc
    | none => rw [lookupUser_miss md5Sum h m n hc]; exact goMap_set_same _ _ _
  have hlater := run_keeps_username md5Sum n _ cs _ hfirst hcs hk
  rw [lookupUser_hit md5Sum h' _ n _ hlater]

/-- C6, amended, at a concrete input: after `lookupUser "5"` returned 9
against `numHost`, the calls `lookupUserID 7`, `lookupGroup "g"`,
`lookupUser "a"`, `lookupGroupID 5` and `lookupUserID 9` leave the id of `5`
at 9. -/
theorem stable_id_witness :
    (∀ c ∈ [Call.lookupUserID numHost 7, Call.lookupGroup groupHost [103],
        Call.lookupUser twinHost [97], Call.lookupGroupID groupHost 5,
        Call.lookupUserID numHost 9], isLookup c = true) ∧
      (lookupUser zeroSum numHost (emptyMapping []) [53]).1 = 9 ∧
      (lookupUser zeroSum noHost
        (run zeroSum (lookupUser zeroSum numHost (emptyMapping []) [53]).2
          [Call.lookupUserID numHost 7, Call.lookupGroup groupHost [103],
            Call.lookupUser twinHost [97], Call.lookupGroupID groupHost 5,
            Call.lookupUserID numHost 9]) [53]).1
        = (lookupUser zeroSum numHost (emptyMapping []) [53]).1 :=
  ⟨by decide, by decide,
    stable_id zeroSum numHost noHost (emptyMapping []) [53] _ (by decide) (by decide)⟩

/-! ## C7: the id of a name the host does not know -/

theorem lor_shiftLeft_eq_add (a b k : Nat) (ha : a < 2 ^ k) :
    a ||| b <<< k = a + 2 ^ k * b := by
  rw [Nat.shiftLeft_eq, Nat.mul_comm b, Nat.lor_comm, ← Nat.mul_add_lt_is_or ha, Nat.add_comm]

theorem Uint64_eq_leValue (b : Fin 8 → Byte) : Uint64 b = leValue (List.ofFn b) := by
  have h0 := (b 0).isLt
  have h1 := (b 1).isLt
  have h2 := (b 2).isLt
  have h3 := (b 3).isLt
  have h4 := (b 4).isLt
  have h5 := (b 5).isLt
  have h6 := (b 6).isLt
  have h7 := (b 7).isLt
  unfold Uint64
  rw [lor_shiftLeft_eq_add _ _ 8 (by omega)]
  rw [lor_shiftLeft_eq_add _ _ 16 (by omega)]
  rw [lor_shiftLeft_eq_add _ _ 24 (by omega)]
  rw [lor_shiftLeft_eq_add _ _ 32 (by omega)]
  rw [lor_shiftLeft_eq_add _ _ 40 (by omega)]
  rw [lor_shiftLeft_eq_add _ _ 48 (by omega)]
  rw [lor_shiftLeft_eq_add _ _ 56 (by omega)]
  simp [List.ofFn_succ, leValue]
  omega

theorem ofFn_take_eight (d : Digest) : (List.ofFn d).take 8 = List.ofFn (lowHalf d) := by
  simp only [List.ofFn_succ, List.ofFn_zero, List.take_succ_cons, List.take_zero, lowHalf]
  rfl

theorem ofFn_drop_eight (d : Digest) :
    ((List.ofFn d).drop 8).take 8 = List.ofFn (highHalf d) := by
  simp only [List.ofFn_succ, List.ofFn_zero, List.drop_succ_cons, List.drop_zero,
    List.take_succ_cons, List.take_zero, List.take_nil, highHalf]
  rfl

theorem genGuid_eq_specGuid (md5Sum : GoString → Digest) (m : mapping) (name : GoString) :
    genGuid md5Sum m name = specGuid md5Sum m.salt name := by
  simp only [genGuid, specGuid, Uint64_eq_leValue, ofFn_take_eight, ofFn_drop_eight]

theorem genGuid_of_salt (md5Sum : GoString → Digest) (m m' : mapping) (name : GoString)
    (hs : m'.salt = m.salt) : genGuid md5Sum m' name = genGuid md5Sum m name := by
  simp only [genGuid, hs]

theorem lookupUser_fallback (md5Sum : GoString → Digest) (h : Host) (m : mapping)
    (name : GoString) (hc : m.usernames name = none) (hh : (h.Lookup name).1 = none) :
    (lookupUser md5Sum h m name).1 = genGuid md5Sum m name := by
  rw [lookupUser_miss md5Sum h m name hc]
  simp [userIdOnMiss, hh]

/-- C7. When `name` is not a key of `usernames` and the host has no user of
that name, `lookupUser name` returns `genGuid name`, which is the low 32 bits,
as a non-negative integer, of `LE64(d[0..8]) XOR LE64(d[8..16])` for the digest
`d` of `salt ++ name ++ salt`. The value depends on the salt and the name only:
any other such resolution of the name, in any tables with the same salt and
against any host without that user, returns the same id. -/
theorem fallback_id (md5Sum : GoString → Digest) (h : Host) (m : mapping) (name : GoString)
    (hc : m.usernames name = none) (hh : (h.Lookup name).1 = none) :
    (lookupUser md5Sum h m name).1 = genGuid md5Sum m name ∧
      genGuid md5Sum m name = specGuid md5Sum m.salt name ∧
      (∀ (h' : Host) (m' : mapping), m'.salt = m.salt → m'.usernames name = none →
        (h'.Lookup name).1 = none →
        (lookupUser md5Sum h' m' name).1 = (lookupUser md5Sum h m name).1) := by
  refine ⟨lookupUser_fallback md5Sum h m name hc hh, genGuid_eq_specGuid md5Sum m name, ?_⟩
  intro h' m' hs hc' hh'
  rw [lookupUser_fallback md5Sum h' m' name hc' hh', lookupUser_fallback md5Sum h m name hc hh]
  exact genGuid_of_salt md5Sum m m' name hs

/-- C7 at a concrete input: salt `s`, name `ghost`, empty tables and a host
without accounts. -/
theorem fallback_id_witness :
    (emptyMapping [115]).usernames [103, 104, 111, 115, 116] = none ∧
      (noHost.Lookup [103, 104, 111, 115, 116]).1 = none ∧
      (lookupUser zeroSum noHost (emptyMapping [115]) [103, 104, 111, 115, 116]).1
        = specGuid zeroSum [115] [103, 104, 111, 115, 116] :=
  ⟨rfl, rfl,
    ((fallback_id zeroSum noHost (emptyMapping [115]) [103, 104, 111, 115, 116] rfl rfl).1).trans
      (fallback_id zeroSum noHost (emptyMapping [115]) [103, 104, 111, 115, 116] rfl rfl).2.1⟩

/-! ## C8: names of more than 49 bytes -/

theorem cut49_of_le (s : GoString) (hs : s.length ≤ 49) : cut49 s = s := by
  unfold cut49
  rw [if_neg (by omega)]

theorem cut49_of_ge (s : GoString) (hs : 50 ≤ s.length) : cut49 s = s.take 49 := by
  unfold cut49
  rw [if_pos (by omega)]

theorem lookupUserID_host (h : Host) (m : mapping) (id : Int) (u : User)
    (hc : m.userIDs id = none) (hu : (h.LookupId (Itoa id)).1 = some u) :
    (lookupUserID h m id).1 = cut49 u.Username ∧
      (lookupUserID h m id).2.userIDs id = some (cut49 u.Username) ∧
      (lookupUserID h m id).2.usernames (cut49 u.Username) = some id := by
  have hname : userNameOnMiss h id = cut49 u.Username := by simp [userNameOnMiss, hu]
  rw [lookupUserID_miss h m id hc, hname]
  exact ⟨rfl, goMap_set_same _ _ _, goMap_set_same _ _ _⟩

theorem lookupGroupID_host (h : Host) (m : mapping) (id : Int) (g : Group)
    (hc : m.groupIDs id = none) (hg : (h.LookupGroupId (Itoa id)).1 = some g) :
    (lookupGroupID h m id).1 = cut49 g.Name ∧
      (lookupGroupID h m id).2.groupIDs id = some (cut49 g.Name) ∧
      (lookupGroupID h m id).2.groups (cut49 g.Name) = some id := by
  have hname : groupNameOnMiss h id = cut49 g.Name := by simp [groupNameOnMiss, hg]
  rw [lookupGroupID_miss h m id hc, hname]
  exact ⟨rfl, goMap_set_same _ _ _, goMap_set_same _ _ _⟩

/-- C8. For an id that is not a key of `userIDs` and a host that answers the
query for that id with a user whose username is `s`: when `s` has at most 49
bytes `lookupUserID id` returns `s` and records `userIDs[id] = s` and
`usernames[s] = id`; when `s` has 50 or more bytes it returns the first 49
bytes of `s`, a name of exactly 49 bytes, and records that name in both
tables. The same holds for `lookupGroupID`, `groupIDs`, `groups` and the name
of the host group. -/
theorem truncation_boundary :
    (∀ (h : Host) (m : mapping) (id : Int) (s : GoString), m.userIDs id = none →
        (∃ u, (h.LookupId (Itoa id)).1 = some u ∧ u.Username = s) →
        (s.length ≤ 49 →
          (lookupUserID h m id).1 = s ∧ (lookupUserID h m id).2.userIDs id = some s ∧
            (lookupUserID h m id).2.usernames s = some id) ∧
        (50 ≤ s.length →
          (lookupUserID h m id).1 = s.take 49 ∧ (lookupUserID h m id).1.length = 49 ∧
            (lookupUserID h m id).2.userIDs id = some (s.take 49) ∧
            (lookupUserID h m id).2.usernames (s.take 49) = some id)) ∧
      (∀ (h : Host) (m : mapping) (id : Int) (s : GoString), m.groupIDs id = none →
        (∃ g, (h.LookupGroupId (Itoa id)).1 = some g ∧ g.Name = s) →
        (s.length ≤ 49 →
          (lookupGroupID h m id).1 = s ∧ (lookupGroupID h m id).2.groupIDs id = some s ∧
            (lookupGroupID h m id).2.groups s = some id) ∧
        (50 ≤ s.length →
          (lookupGroupID h m id).1 = s.take 49 ∧ (lookupGroupID h m id).1.length = 49 ∧
            (lookupGroupID h m id).2.groupIDs id = some (s.take 49) ∧
            (lookupGroupID h m id).2.groups (s.take 49) = some id)) := by
  constructor
  · rintro h m id s hc ⟨u, hu, rfl⟩
    obtain ⟨h1, h2, h3⟩ := lookupUserID_host h m id u hc hu
    constructor
    · intro hs
      rw [cut49_of_le _ hs] at h1 h2 h3
      exact ⟨h1, h2, h3⟩
    · intro hs
      rw [cut49_of_ge _ hs] at h1 h2 h3
      refine ⟨h1, ?_, h2, h3⟩
      rw [h1, List.length_take]
      omega
  · rintro h m id s hc ⟨g, hg, rfl⟩
    obtain ⟨h1, h2, h3⟩ := lookupGroupID_host h m id g hc hg
    constructor
    · intro hs
      rw [cut49_of_le _ hs] at h1 h2 h3
      exact ⟨h1, h2, h3⟩
    · intro hs
      rw [cut49_of_ge _ hs] at h1 h2 h3
      refine ⟨h1, ?_, h2, h3⟩
      rw [h1, List.length_take]
      omega

/-- C8 at a concrete input: `longHost` answers the query for uid 7 with the
50-byte name `longName`; `lookupUserID 7` on the empty table returns its
first 49 bytes. -/
theorem truncation_boundary_witness :
    (emptyMapping []).userIDs 7 = none ∧ 50 ≤ longName.length ∧
      (lookupUserID longHost (emptyMapping []) 7).1 = longName.take 49 ∧
      (lookupUserID longHost (emptyMapping []) 7).1.length = 49 ∧
      (lookupUserID longHost (emptyMapping []) 7).2.userIDs 7 = some (longName.take 49) ∧
      (lookupUserID longHost (emptyMapping []) 7).2.usernames (longName.take 49) = some 7 :=
  ⟨rfl, by decide,
    (truncation_boundary.1 longHost (emptyMapping []) 7 longName rfl
      ⟨mkUser [55] longName, by decide, rfl⟩).2 (by decide)⟩

/-! ## C9: a seeded id -/

theorem lastNameOf_append (us : List pwent) (u : pwent) (id : Int) :
    lastNameOf (us ++ [u]) id = if u.id = id then some u.name else lastNameOf us id := by
  unfold lastNameOf
  rw [List.reverse_append, List.reverse_singleton, List.singleton_append, List.find?_cons]
  by_cases hid : u.id = id <;> simp [hid]

theorem lastNameOf_isSome (uids : List pwent) (id : Int) (hid : ∃ u ∈ uids, u.id = id) :
    ∃ name, lastNameOf uids id = some name := by
  induction uids using List.reverseRecOn with
  | nil =>
    obtain ⟨u, hu, _⟩ := hid
    cases hu
  | append_singleton us u ih =>
    rw [lastNameOf_append]
    by_cases hu : u.id = id
    · exact ⟨u.name, by rw [if_pos hu]⟩
    · rw [if_neg hu]
      apply ih
      obtain ⟨v, hv, hvid⟩ := hid
      rcases List.mem_append.1 hv with hv | hv
      · exact ⟨v, hv, hvid⟩
      · rw [List.mem_singleton] at hv
        rw [hv] at hvid
        exact absurd hvid hu

theorem foldl_putUser_userIDs (uids : List pwent) (m : mapping) (id : Int) :
    (uids.foldl putUser m).userIDs id =
      match lastNameOf uids id with
      | some name => some name
      | none => m.userIDs id := by
  induction uids using List.reverseRecOn with
  | nil => rfl
  | append_singleton us u ih =>
    rw [List.foldl_append, lastNameOf_append]
    show (GoMap.set (us.foldl putUser m).userIDs u.id u.name) id = _
    by_cases hu : u.id = id
    · rw [if_pos hu, ← hu]
      exact goMap_set_same _ _ _
    · rw [if_neg hu, goMap_set_other _ _ (fun hcontra => hu hcontra.symm)]
      exact ih

theorem foldl_putGroup_users (gids : List pwent) (m : mapping) :
    (gids.foldl putGroup m).usernames = m.usernames ∧
      (gids.foldl putGroup m).userIDs = m.userIDs ∧ (gids.foldl putGroup m).salt = m.salt := by
  induction gids generalizing m with
  | nil => exact ⟨rfl, rfl, rfl⟩
  | cons g gs ih => exact ih (putGroup m g)

theorem update_userIDs (m : mapping) (uids gids : List pwent) (id : Int) :
    (update m uids gids).userIDs id =
      match lastNameOf uids id with
      | some name => some name
      | none => m.userIDs id := by
  unfold update
  rw [(foldl_putGroup_users gids _).2.1]
  exact foldl_putUser_userIDs uids m id

/-- C9. For every prior state, all lists `uids` and `gids` and every id that
occurs in `uids`: the list has a last entry carrying that id, and after
`update uids gids` the call `lookupUserID id` returns the name of that entry
and leaves the tables as `update` left them, whatever the host directory is. -/
theorem seed_precedence (m : mapping) (uids gids : List pwent) (id : Int)
    (hid : ∃ u ∈ uids, u.id = id) :
    ∃ name, lastNameOf uids id = some name ∧
      ∀ h : Host, lookupUserID h (update m uids gids) id = (name, update m uids gids) := by
  obtain ⟨name, hname⟩ := lastNameOf_isSome uids id hid
  refine ⟨name, hname, fun h => ?_⟩
  apply lookupUserID_hit
  rw [update_userIDs, hname]

/-- C9 at a concrete input: seeding the empty table with `(1000, alice)` and
then resolving id 1000 returns `alice`. -/
theorem seed_precedence_witness :
    (∃ u ∈ [(⟨1000, [97, 108, 105, 99, 101]⟩ : pwent)], u.id = 1000) ∧
      ∃ name, lastNameOf [(⟨1000, [97, 108, 105, 99, 101]⟩ : pwent)] 1000 = some name ∧
        ∀ h : Host,
          lookupUserID h (update (emptyMapping []) [⟨1000, [97, 108, 105, 99, 101]⟩] []) 1000
            = (name, update (emptyMapping []) [⟨1000, [97, 108, 105, 99, 101]⟩] []) :=
  ⟨⟨_, List.mem_singleton_self _, rfl⟩,
    seed_precedence (emptyMapping []) [⟨1000, [97, 108, 105, 99, 101]⟩] [] 1000
      ⟨_, List.mem_singleton_self _, rfl⟩⟩

/-! ## C10: keys stay -/

theorem keysKept_refl (m : mapping) : KeysKept m m :=
  ⟨fun _ hk => hk, fun _ hk => hk, fun _ hk => hk, fun _ hk => hk⟩

theorem keysKept_trans {a b c : mapping} (hab : KeysKept a b) (hbc : KeysKept b c) :
    KeysKept a c :=
  ⟨fun n hk => hbc.1 n (hab.1 n hk), fun i hk => hbc.2.1 i (hab.2.1 i hk),
    fun n hk => hbc.2.2.1 n (hab.2.2.1 n hk), fun i hk => hbc.2.2.2 i (hab.2.2.2 i hk)⟩

theorem keysKept_setUser (m : mapping) (n : GoString) (i : Int) :
    KeysKept m { m with usernames := m.usernames.set n i, userIDs := m.userIDs.set i n } :=
  ⟨fun x hk => goMap_set_ne_none _ n x i hk, fun x hk => goMap_set_ne_none _ i x n hk,
    fun _ hk => hk, fun _ hk => hk⟩

theorem keysKept_setGroup (m : mapping) (n : GoString) (i : Int) :
    KeysKept m { m with groups := m.groups.set n i, groupIDs := m.groupIDs.set i n } :=
  ⟨fun _ hk => hk, fun _ hk => hk, fun x hk => goMap_set_ne_none _ n x i hk,
    fun x hk => goMap_set_ne_none _ i x n hk⟩

theorem keysKept_foldl_putUser (uids : List pwent) (m : mapping) :
    KeysKept m (uids.foldl putUser m) := by
  induction uids generalizing m with
  | nil => exact keysKept_refl m
  | cons u us ih => exact keysKept_trans (keysKept_setUser m u.name u.id) (ih (putUser m u))

theorem keysKept_foldl_putGroup (gids : List pwent) (m : mapping) :
    KeysKept m (gids.foldl putGroup m) := by
  induction gids generalizing m with
  | nil => exact keysKept_refl m
  | cons g gs ih => exact keysKept_trans (keysKept_setGroup m g.name g.id) (ih (putGroup m g))

theorem keysKept_step (md5Sum : GoString → Digest) (m : mapping) (c : Call) :
    KeysKept m (step md5Sum m c) := by
  cases c with
  | update uids gids =>
    exact keysKept_trans (keysKept_foldl_putUser uids m) (keysKept_foldl_putGroup gids _)
  | lookupUser h name =>
    show KeysKept m (lookupUser md5Sum h m name).2
    cases hc : m.usernames name with
    | some i => rw [lookupUser_hit md5Sum h m name i hc]; exact keysKept_refl m
    | none => rw [lookupUser_miss md5Sum h m name hc]; exact keysKept_setUser m _ _
  | lookupGroup h name =>
    show KeysKept m (lookupGroup md5Sum h m name).2
    cases hc : m.groups name with
    | some i => rw [lookupGroup_hit md5Sum h m name i hc]; exact keysKept_refl m
    | none => rw [lookupGroup_miss md5Sum h m name hc]; exact keysKept_setGroup m _ _
  | lookupUserID h id =>
    show KeysKept m (lookupUserID h m id).2
    cases hc : m.userIDs id with
    | some n => rw [lookupUserID_hit h m id n hc]; exact keysKept_refl m
    | none => rw [lookupUserID_miss h m id hc]; exact keysKept_setUser m _ _
  | lookupGroupID h id =>
    show KeysKept m (lookupGroupID h m id).2
    cases hc : m.groupIDs id with
    | some n => rw [lookupGroupID_hit h m id n hc]; exact keysKept_refl m
    | none => rw [lookupGroupID_miss h m id hc]; exact keysKept_setGroup m _ _

/-- C10. For every state, every host directory and every call of `update`,
`lookupUser`, `lookupGroup`, `lookupUserID` or `lookupGroupID`, each key
present in one of the four tables before the call is present in that table
after the call. -/
theorem entries_never_removed (md5Sum : GoString → Digest) (m : mapping) (c : Call) :
    (∀ n, m.usernames n ≠ none → (step md5Sum m c).usernames n ≠ none) ∧
      (∀ i, m.userIDs i ≠ none → (step md5Sum m c).userIDs i ≠ none) ∧
      (∀ n, m.groups n ≠ none → (step md5Sum m c).groups n ≠ none) ∧
      (∀ i, m.groupIDs i ≠ none → (step md5Sum m c).groupIDs i ≠ none) :=
  keysKept_step md5Sum m c

/-! ## C13: the tables after `update` -/

theorem lastIdOf_append (us : List pwent) (u : pwent) (n : GoString) :
    lastIdOf (us ++ [u]) n = if u.name = n then some u.id else lastIdOf us n := by
  unfold lastIdOf
  rw [List.reverse_append, List.reverse_singleton, List.singleton_append, List.find?_cons]
  by_cases hn : u.name = n <;> simp [hn]

theorem lastIdOf_split (pre post : List pwent) (e : pwent)
    (hpost : ∀ u ∈ post, u.name ≠ e.name) : lastIdOf (pre ++ e :: post) e.name = some e.id := by
  induction post using List.reverseRecOn with
  | nil => rw [lastIdOf_append, if_pos rfl]
  | append_singleton us u ih =>
    have hu : u.name ≠ e.name := hpost u (by simp)
    rw [← List.cons_append, ← List.append_assoc, lastIdOf_append, if_neg hu]
    exact ih (fun v hv => hpost v (by simp [hv]))

theorem lastNameOf_split (pre post : List pwent) (e : pwent)
    (hpost : ∀ u ∈ post, u.id ≠ e.id) : lastNameOf (pre ++ e :: post) e.id = some e.name := by
  induction post using List.reverseRecOn with
  | nil => rw [lastNameOf_append, if_pos rfl]
  | append_singleton us u ih =>
    have hu : u.id ≠ e.id := hpost u (by simp)
    rw [← List.cons_append, ← List.append_assoc, lastNameOf_append, if_neg hu]
    exact ih (fun v hv => hpost v (by simp [hv]))

theorem lastIdOf_absent (uids : List pwent) (n : GoString) (hn : ∀ u ∈ uids, u.name ≠ n) :
    lastIdOf uids n = none := by
  induction uids using List.reverseRecOn with
  | nil => rfl
  | append_singleton us u ih =>
    rw [lastIdOf_append, if_neg (hn u (by simp))]
    exact ih (fun v hv => hn v (by simp [hv]))

theorem lastNameOf_absent (uids : List pwent) (i : Int) (hi : ∀ u ∈ uids, u.id ≠ i) :
    lastNameOf uids i = none := by
  induction uids using List.reverseRecOn with
  | nil => rfl
  | append_singleton us u ih =>
    rw [lastNameOf_append, if_neg (hi u (by simp))]
    exact ih (fun v hv => hi v (by simp [hv]))

theorem foldl_putUser_usernames (uids : List pwent) (m : mapping) (n : GoString) :
    (uids.foldl putUser m).usernames n =
      match lastIdOf uids n with
      | some i => some i
      | none => m.usernames n := by
  induction uids using List.reverseRecOn with
  | nil => rfl
  | append_singleton us u ih =>
    rw [List.foldl_append, lastIdOf_append]
    show (GoMap.set (us.foldl putUser m).usernames u.name u.id) n = _
    by_cases hu : u.name = n
    · rw [if_pos hu, ← hu]
      exact goMap_set_same _ _ _
    · rw [if_neg hu, goMap_set_other _ _ (fun hcontra => hu hcontra.symm)]
      exact ih

theorem foldl_putGroup_groups (gids : List pwent) (m : mapping) (n : GoString) :
    (gids.foldl putGroup m).groups n =
      match lastIdOf gids n with
      | some i => some i
      | none => m.groups n := by
  induction gids using List.reverseRecOn with
  | nil => rfl
  | append_singleton gs g ih =>
    rw [List.foldl_append, lastIdOf_append]
    show (GoMap.set (gs.foldl putGroup m).groups g.name g.id) n = _
    by_cases hg : g.name = n
    · rw [if_pos hg, ← hg]
      exact goMap_set_same _ _ _
    · rw [if_neg hg, goMap_set_other _ _ (fun hcontra => hg hcontra.symm)]
      exact ih

theorem foldl_putGroup_groupIDs (gids : List pwent) (m : mapping) (id : Int) :
    (gids.foldl putGroup m).groupIDs id =
      match lastNameOf gids id with
      | some name => some name
      | none => m.groupIDs id := by
  induction gids using List.reverseRecOn with
  | nil => rfl
  | append_singleton gs g ih =>
    rw [List.foldl_append, lastNameOf_append]
    show (GoMap.set (gs.foldl putGroup m).groupIDs g.id g.name) id = _
    by_cases hg : g.id = id
    · rw [if_pos hg, ← hg]
      exact goMap_set_same _ _ _
    · rw [if_neg hg, goMap_set_other _ _ (fun hcontra => hg hcontra.symm)]
      exact ih

theorem foldl_putUser_groups (uids : List pwent) (m : mapping) :
    (uids.foldl putUser m).groups = m.groups ∧
      (uids.foldl putUser m).groupIDs = m.groupIDs ∧ (uids.foldl putUser m).salt = m.salt := by
  induction uids generalizing m with
  | nil => exact ⟨rfl, rfl, rfl⟩
  | cons u us ih => exact ih (putUser m u)

theorem update_usernames (m : mapping) (uids gids : List pwent) (n : GoString) :
    (update m uids gids).usernames n =
      match lastIdOf uids n with
      | some i => some i
      | none => m.usernames n := by
  unfold update
  rw [(foldl_putGroup_users gids _).1]
  exact foldl_putUser_usernames uids m n

theorem update_groups (m : mapping) (uids gids : List pwent) (n : GoString) :
    (update m uids gids).groups n =
      match lastIdOf gids n with
      | some i => some i
      | none => m.groups n := by
  unfold update
  rw [foldl_putGroup_groups, (foldl_putUser_groups uids m).1]

theorem update_groupIDs (m : mapping) (uids gids : List pwent) (id : Int) :
    (update m uids gids).groupIDs id =
      match lastNameOf gids id with
      | some name => some name
      | none => m.groupIDs id := by
  unfold update
  rw [foldl_putGroup_groupIDs, (foldl_putUser_groups uids m).2.1]

theorem update_salt (m : mapping) (uids gids : List pwent) :
    (update m uids gids).salt = m.salt := by
  unfold update
  rw [(foldl_putGroup_users gids _).2.2, (foldl_putUser_groups uids m).2.2]

/-- C13. After `update uids gids`, for every entry `e` of `uids` that no later
entry of `uids` follows with the same name, `usernames[e.name] = e.id`, and
for every entry `e` of `uids` that no later entry follows with the same id,
`userIDs[e.id] = e.name`; likewise `groups` and `groupIDs` from `gids`. A name
carried by no entry of `uids` keeps in `usernames` the value, or the absence,
it had before, and so does an id carried by no entry in `userIDs`; likewise
for `groups` and `groupIDs` and the entries of `gids`. -/
theorem seed_last_write_wins (m : mapping) (uids gids : List pwent) :
    ((∀ pre e post, uids = pre ++ e :: post → (∀ u ∈ post, u.name ≠ e.name) →
        (update m uids gids).usernames e.name = some e.id) ∧
      (∀ pre e post, uids = pre ++ e :: post → (∀ u ∈ post, u.id ≠ e.id) →
        (update m uids gids).userIDs e.id = some e.name) ∧
      (∀ pre e post, gids = pre ++ e :: post → (∀ g ∈ post, g.name ≠ e.name) →
        (update m uids gids).groups e.name = some e.id) ∧
      (∀ pre e post, gids = pre ++ e :: post → (∀ g ∈ post, g.id ≠ e.id) →
        (update m uids gids).groupIDs e.id = some e.name)) ∧
    ((∀ n, (∀ u ∈ uids, u.name ≠ n) → (update m uids gids).usernames n = m.usernames n) ∧
      (∀ i, (∀ u ∈ uids, u.id ≠ i) → (update m uids gids).userIDs i = m.userIDs i) ∧
      (∀ n, (∀ g ∈ gids, g.name ≠ n) → (update m uids gids).groups n = m.groups n) ∧
      (∀ i, (∀ g ∈ gids, g.id ≠ i) → (update m uids gids).groupIDs i = m.groupIDs i)) := by
  refine ⟨⟨?_, ?_, ?_, ?_⟩, ⟨?_, ?_, ?_, ?_⟩⟩
  · rintro pre e post rfl hpost
    rw [update_usernames, lastIdOf_split pre post e hpost]
  · rintro pre e post rfl hpost
    rw [update_userIDs, lastNameOf_split pre post e hpost]
  · rintro pre e post rfl hpost
    rw [update_groups, lastIdOf_split pre post e hpost]
  · rintro pre e post rfl hpost
    rw [update_groupIDs, lastNameOf_split pre post e hpost]
  · intro n hn
    rw [update_usernames, lastIdOf_absent uids n hn]
  · intro i hi
    rw [update_userIDs, lastNameOf_absent uids i hi]
  · intro n hn
    rw [update_groups, lastIdOf_absent gids n hn]
  · intro i hi
    rw [update_groupIDs, lastNameOf_absent gids i hi]

/-- C13 at a concrete input: `update [(1, a), (1, b)] [(1, a), (2, a)]` on the
empty table leaves `usernames[a] = 1`, `userIDs[1] = b`, `groups[a] = 2`,
`groupIDs[1] = a`, and no entry for the name `c`. -/
theorem seed_last_write_wins_witness :
    (update (emptyMapping []) sameIdSeeds sameNameSeeds).usernames [97] = some 1 ∧
      (update (emptyMapping []) sameIdSeeds sameNameSeeds).userIDs 1 = some [98] ∧
      (update (emptyMapping []) sameIdSeeds sameNameSeeds).groups [97] = some 2 ∧
      (update (emptyMapping []) sameIdSeeds sameNameSeeds).groupIDs 1 = some [97] ∧
      (update (emptyMapping []) sameIdSeeds sameNameSeeds).usernames [99]
        = (emptyMapping []).usernames [99] :=
  ⟨(seed_last_write_wins (emptyMapping []) sameIdSeeds sameNameSeeds).1.1
      [] ⟨1, [97]⟩ [⟨1, [98]⟩] rfl (by decide),
    (seed_last_write_wins (emptyMapping []) sameIdSeeds sameNameSeeds).1.2.1
      [⟨1, [97]⟩] ⟨1, [98]⟩ [] rfl (by decide),
    (seed_last_write_wins (emptyMapping []) sameIdSeeds sameNameSeeds).1.2.2.1
      [⟨1, [97]⟩] ⟨2, [97]⟩ [] rfl (by decide),
    (seed_last_write_wins (emptyMapping []) sameIdSeeds sameNameSeeds).1.2.2.2
      [] ⟨1, [97]⟩ [⟨2, [97]⟩] rfl (by decide),
    (seed_last_write_wins (emptyMapping []) sameIdSeeds sameNameSeeds).2.1 [99] (by decide)⟩

/-! ## C14: `update` twice -/

theorem mapping_ext (a b : mapping) (hs : a.salt = b.salt)
    (h1 : ∀ n, a.usernames n = b.usernames n) (h2 : ∀ i, a.userIDs i = b.userIDs i)
    (h3 : ∀ n, a.groups n = b.groups n) (h4 : ∀ i, a.groupIDs i = b.groupIDs i) : a = b := by
  cases a
  cases b
  simp only [mapping.mk.injEq]
  exact ⟨hs, funext h1, funext h2, funext h3, funext h4⟩

/-- C14. For every state and all lists `uids` and `gids`, applying
`update uids gids` twice in a row yields the same state, with the same four
tables, as applying it once. -/
theorem update_twice (m : mapping) (uids gids : List pwent) :
    update (update m uids gids) uids gids = update m uids gids := by
  apply mapping_ext
  · rw [update_salt]
  · intro n
    rw [update_usernames (update m uids gids), update_usernames m]
    cases lastIdOf uids n <;> rfl
  · intro i
    rw [update_userIDs (update m uids gids), update_userIDs m]
    cases lastNameOf uids i <;> rfl
  · intro n
    rw [update_groups (update m uids gids), update_groups m]
    cases lastIdOf gids n <;> rfl
  · intro i
    rw [update_groupIDs (update m uids gids), update_groupIDs m]
    cases lastNameOf gids i <;> rfl

/-! ## C15: `lookupGroupID` and `lookupUserID` -/

theorem swapTables_swapTables (m : mapping) : swapTables (swapTables m) = m := rfl

theorem groupsAsUsers_name (h : Host) (id : Int) :
    userNameOnMiss (groupsAsUsers h) id = groupNameOnMiss h id := by
  unfold userNameOnMiss groupNameOnMiss groupsAsUsers
  cases hq : (h.LookupGroupId (Itoa id)).1 <;> simp [hq, groupAsUser]

/-- C15. For every state, host directory and id, `lookupGroupID id` returns
the name and leaves the state that `lookupUserID id` returns and leaves when
it runs on the state with the user and group tables exchanged, against the
host whose user-by-id query is the group-by-id query, and the tables are
exchanged back afterwards. -/
theorem lookupGroupID_refines (h : Host) (m : mapping) (id : Int) :
    lookupGroupID h m id =
      ((lookupUserID (groupsAsUsers h) (swapTables m) id).1,
        swapTables (lookupUserID (groupsAsUsers h) (swapTables m) id).2) := by
  cases hc : m.groupIDs id with
  | some name =>
    rw [lookupGroupID_hit h m id name hc,
      lookupUserID_hit (groupsAsUsers h) (swapTables m) id name hc]
    rfl
  | none =>
    rw [lookupGroupID_miss h m id hc,
      lookupUserID_miss (groupsAsUsers h) (swapTables m) id hc, groupsAsUsers_name]
    rfl

/-! ## C16: a cache hit -/

/-- C16. When `name` is a key of `usernames`, `lookupUser name` returns
`usernames[name]` and the unchanged state whatever the host directory is;
when `id` is a key of `userIDs`, `lookupUserID id` returns `userIDs[id]` and
the unchanged state whatever the host is; when `id` is a key of `groupIDs`,
`lookupGroupID id` returns `groupIDs[id]` and the unchanged state whatever the
host is. -/
theorem cache_hit_ignores_host :
    (∀ (md5Sum : GoString → Digest) (m : mapping) (name : GoString) (id : Int),
        m.usernames name = some id → ∀ h : Host, lookupUser md5Sum h m name = (id, m)) ∧
      (∀ (m : mapping) (id : Int) (name : GoString),
        m.userIDs id = some name → ∀ h : Host, lookupUserID h m id = (name, m)) ∧
      (∀ (m : mapping) (id : Int) (name : GoString),
        m.groupIDs id = some name → ∀ h : Host, lookupGroupID h m id = (name, m)) :=
  ⟨fun md5Sum m name id hc h => lookupUser_hit md5Sum h m name id hc,
    fun m id name hc h => lookupUserID_hit h m id name hc,
    fun m id name hc h => lookupGroupID_hit h m id name hc⟩

/-- C16 at a concrete input: in the table seeded with `(1, a)` and `(1, b)`
for users and `(1, a)` and `(2, a)` for groups, `lookupUser "a"` returns 1,
`lookupUserID 1` returns `b` and `lookupGroupID 2` returns `a`, against
hosts that answer otherwise or not at all. -/
theorem cache_hit_ignores_host_witness :
    (update (emptyMapping []) sameIdSeeds sameNameSeeds).usernames [97] = some 1 ∧
      lookupUser zeroSum numHost (update (emptyMapping []) sameIdSeeds sameNameSeeds) [97]
        = (1, update (emptyMapping []) sameIdSeeds sameNameSeeds) ∧
      lookupUserID twinHost (update (emptyMapping []) sameIdSeeds sameNameSeeds) 1
        = ([98], update (emptyMapping []) sameIdSeeds sameNameSeeds) ∧
      lookupGroupID groupHost (update (emptyMapping []) sameIdSeeds sameNameSeeds) 2
        = ([97], update (emptyMapping []) sameIdSeeds sameNameSeeds) :=
  ⟨by decide,
    cache_hit_ignores_host.1 zeroSum _ [97] 1 (by decide) numHost,
    cache_hit_ignores_host.2.1 _ 1 [98] (by decide) twinHost,
    cache_hit_ignores_host.2.2 _ 2 [97] (by decide) groupHost⟩

/-! ## C17: what a call leaves alone -/

theorem lookupUser_frame (md5Sum : GoString → Digest) (h : Host) (m : mapping)
    (name : GoString) :
    (lookupUser md5Sum h m name).2.groups = m.groups ∧
      (lookupUser md5Sum h m name).2.groupIDs = m.groupIDs ∧
      (lookupUser md5Sum h m name).2.salt = m.salt := by
  cases hc : m.usernames name with
  | some i => rw [lookupUser_hit md5Sum h m name i hc]; exact ⟨rfl, rfl, rfl⟩
  | none => rw [lookupUser_miss md5Sum h m name hc]; exact ⟨rfl, rfl, rfl⟩

theorem lookupUserID_frame (h : Host) (m : mapping) (id : Int) :
    (lookupUserID h m id).2.groups = m.groups ∧
      (lookupUserID h m id).2.groupIDs = m.groupIDs ∧
      (lookupUserID h m id).2.salt = m.salt := by
  cases hc : m.userIDs id with
  | some n => rw [lookupUserID_hit h m id n hc]; exact ⟨rfl, rfl, rfl⟩
  | none => rw [lookupUserID_miss h m id hc]; exact ⟨rfl, rfl, rfl⟩

theorem lookupGroup_frame (md5Sum : GoString → Digest) (h : Host) (m : mapping)
    (name : GoString) :
    (lookupGroup md5Sum h m name).2.usernames = m.usernames ∧
      (lookupGroup md5Sum h m name).2.userIDs = m.userIDs ∧
      (lookupGroup md5Sum h m name).2.salt = m.salt := by
  cases hc : m.groups name with
  | some i => rw [lookupGroup_hit md5Sum h m name i hc]; exact ⟨rfl, rfl, rfl⟩
  | none => rw [lookupGroup_miss md5Sum h m name hc]; exact ⟨rfl, rfl, rfl⟩

theorem lookupGroupID_frame (h : Host) (m : mapping) (id : Int) :
    (lookupGroupID h m id).2.usernames = m.usernames ∧
      (lookupGroupID h m id).2.userIDs = m.userIDs ∧
      (lookupGroupID h m id).2.salt = m.salt := by
  cases hc : m.groupIDs id with
  | some n => rw [lookupGroupID_hit h m id n hc]; exact ⟨rfl, rfl, rfl⟩
  | none => rw [lookupGroupID_miss h m id hc]; exact ⟨rfl, rfl, rfl⟩

/-- C17. For every state and host directory, `lookupUser` and `lookupUserID`
leave `groups`, `groupIDs` and `salt` unchanged; `lookupGroup` and
`lookupGroupID` leave `usernames`, `userIDs` and `salt` unchanged; `update`
leaves `salt` unchanged. -/
theorem classes_independent (md5Sum : GoString → Digest) (h : Host) (m : mapping) :
    (∀ name, (lookupUser md5Sum h m name).2.groups = m.groups ∧
        (lookupUser md5Sum h m name).2.groupIDs = m.groupIDs ∧
        (lookupUser md5Sum h m name).2.salt = m.salt) ∧
      (∀ id, (lookupUserID h m id).2.groups = m.groups ∧
        (lookupUserID h m id).2.groupIDs = m.groupIDs ∧
        (lookupUserID h m id).2.salt = m.salt) ∧
      (∀ name, (lookupGroup md5Sum h m name).2.usernames = m.usernames ∧
        (lookupGroup md5Sum h m name).2.userIDs = m.userIDs ∧
        (lookupGroup md5Sum h m name).2.salt = m.salt) ∧
      (∀ id, (lookupGroupID h m id).2.usernames = m.usernames ∧
        (lookupGroupID h m id).2.userIDs = m.userIDs ∧
        (lookupGroupID h m id).2.salt = m.salt) ∧
      (∀ uids gids, (update m uids gids).salt = m.salt) :=
  ⟨lookupUser_frame md5Sum h m, lookupUserID_frame h m, lookupGroup_frame md5Sum h m,
    lookupGroupID_frame h m, update_salt m⟩

/-! ## C20: an id resolved to a name and back -/

/-- C20. For every state in which `id` is not a key of `userIDs` and every
host directory: when `lookupUserID id` returns the name `n`, an immediately
following `lookupUser n` returns `id` and the unchanged state, whatever host
directory it is given. -/
theorem id_name_id (md5Sum : GoString → Digest) (h : Host) (m : mapping) (id : Int)
    (hc : m.userIDs id = none) :
    ∀ h' : Host,
      lookupUser md5Sum h' (lookupUserID h m id).2 (lookupUserID h m id).1
        = (id, (lookupUserID h m id).2) := by
  intro h'
  apply lookupUser_hit
  rw [lookupUserID_miss h m id hc]
  exact goMap_set_same _ _ _

/-- C20 at a concrete input: `lookupUserID 7` against `longHost` on the empty
table, then `lookupUser` of the returned name against a host without
accounts. -/
theorem id_name_id_witness :
    (emptyMapping []).userIDs 7 = none ∧
      lookupUser zeroSum noHost (lookupUserID longHost (emptyMapping []) 7).2
          (lookupUserID longHost (emptyMapping []) 7).1
        = (7, (lookupUserID longHost (emptyMapping []) 7).2) :=
  ⟨rfl, id_name_id zeroSum longHost (emptyMapping []) 7 rfl noHost⟩

/-! ## C12: a host query that fails -/

theorem lookupUser_congr (md5Sum : GoString → Digest) (h1 h2 : Host) (m : mapping)
    (name : GoString) (hq : (h1.Lookup name).1 = (h2.Lookup name).1) :
    lookupUser md5Sum h1 m name = lookupUser md5Sum h2 m name := by
  simp only [lookupUser, hq]

theorem lookupGroup_congr (md5Sum : GoString → Digest) (h1 h2 : Host) (m : mapping)
    (name : GoString) (hq : (h1.LookupGroup name).1 = (h2.LookupGroup name).1) :
    lookupGroup md5Sum h1 m name = lookupGroup md5Sum h2 m name := by
  simp only [lookupGroup, hq]

theorem lookupUserID_congr (h1 h2 : Host) (m : mapping) (id : Int)
    (hq : (h1.LookupId (Itoa id)).1 = (h2.LookupId (Itoa id)).1) :
    lookupUserID h1 m id = lookupUserID h2 m id := by
  simp only [lookupUserID, hq]

theorem lookupGroupID_congr (h1 h2 : Host) (m : mapping) (id : Int)
    (hq : (h1.LookupGroupId (Itoa id)).1 = (h2.LookupGroupId (Itoa id)).1) :
    lookupGroupID h1 m id = lookupGroupID h2 m id := by
  simp only [lookupGroupID, hq]

/-- C12. For each of the four lookups, every state and every input: a host
directory whose query fails (nil and an error `e`, whatever the error is) and
a host directory that reports no such account (nil) give the same returned
value and the same resulting tables. On a cache miss that value is the
fallback: `genGuid name` for `lookupUser`, and the decimal string of the id,
cut to 49 bytes, for `lookupUserID` and `lookupGroupID`. -/
theorem host_error_as_absent :
    (∀ (md5Sum : GoString → Digest) (h1 h2 : Host) (m : mapping) (name : GoString)
        (e : String), h1.Lookup name = (none, some e) → (h2.Lookup name).1 = none →
        lookupUser md5Sum h1 m name = lookupUser md5Sum h2 m name ∧
          (m.usernames name = none →
            (lookupUser md5Sum h1 m name).1 = genGuid md5Sum m name)) ∧
      (∀ (md5Sum : GoString → Digest) (h1 h2 : Host) (m : mapping) (name : GoString)
        (e : String), h1.LookupGroup name = (none, some e) → (h2.LookupGroup name).1 = none →
        lookupGroup md5Sum h1 m name = lookupGroup md5Sum h2 m name) ∧
      (∀ (h1 h2 : Host) (m : mapping) (id : Int) (e : String),
        h1.LookupId (Itoa id) = (none, some e) → (h2.LookupId (Itoa id)).1 = none →
        lookupUserID h1 m id = lookupUserID h2 m id ∧
          (m.userIDs id = none → (lookupUserID h1 m id).1 = cut49 (Itoa id))) ∧
      (∀ (h1 h2 : Host) (m : mapping) (id : Int) (e : String),
        h1.LookupGroupId (Itoa id) = (none, some e) → (h2.LookupGroupId (Itoa id)).1 = none →
        lookupGroupID h1 m id = lookupGroupID h2 m id ∧
          (m.groupIDs id = none → (lookupGroupID h1 m id).1 = cut49 (Itoa id))) := by
  refine ⟨?_, ?_, ?_, ?_⟩
  · intro md5Sum h1 h2 m name e hq1 hq2
    have hnone : (h1.Lookup name).1 = none := by rw [hq1]
    refine ⟨lookupUser_congr md5Sum h1 h2 m name (by rw [hnone, hq2]), fun hc => ?_⟩
    rw [lookupUser_miss md5Sum h1 m name hc]
    simp [userIdOnMiss, hnone]
  · intro md5Sum h1 h2 m name e hq1 hq2
    exact lookupGroup_congr md5Sum h1 h2 m name (by rw [hq1, hq2])
  · intro h1 h2 m id e hq1 hq2
    have hnone : (h1.LookupId (Itoa id)).1 = none := by rw [hq1]
    refine ⟨lookupUserID_congr h1 h2 m id (by rw [hnone, hq2]), fun hc => ?_⟩
    rw [lookupUserID_miss h1 m id hc]
    simp [userNameOnMiss, hnone]
  · intro h1 h2 m id e hq1 hq2
    have hnone : (h1.LookupGroupId (Itoa id)).1 = none := by rw [hq1]
    refine ⟨lookupGroupID_congr h1 h2 m id (by rw [hnone, hq2]), fun hc => ?_⟩
    rw [lookupGroupID_miss h1 m id hc]
    simp [groupNameOnMiss, hnone]

/-- C12 at a concrete input: a host whose four queries fail with an
input/output error and the host that knows no account, on the empty table
with salt `s`. -/
theorem host_error_as_absent_witness :
    lookupUser zeroSum failingHost (emptyMapping [115]) [103]
        = lookupUser zeroSum noHost (emptyMapping [115]) [103] ∧
      lookupGroup zeroSum failingHost (emptyMapping [115]) [103]
        = lookupGroup zeroSum noHost (emptyMapping [115]) [103] ∧
      lookupUserID failingHost (emptyMapping [115]) 1000
        = lookupUserID noHost (emptyMapping [115]) 1000 ∧
      (lookupUserID failingHost (emptyMapping [115]) 1000).1 = [49, 48, 48, 48] ∧
      lookupGroupID failingHost (emptyMapping [115]) 1000
        = lookupGroupID noHost (emptyMapping [115]) 1000 :=
  ⟨(host_error_as_absent.1 zeroSum failingHost noHost (emptyMapping [115]) [103]
      "input/output error" rfl rfl).1,
    host_error_as_absent.2.1 zeroSum failingHost noHost (emptyMapping [115]) [103]
      "input/output error" rfl rfl,
    (host_error_as_absent.2.2.1 failingHost noHost (emptyMapping [115]) 1000
      "input/output error" rfl rfl).1,
    ((host_error_as_absent.2.2.1 failingHost noHost (emptyMapping [115]) 1000
      "input/output error" rfl rfl).2 rfl).trans (by decide),
    (host_error_as_absent.2.2.2 failingHost noHost (emptyMapping [115]) 1000
      "input/output error" rfl rfl).1⟩

/-! ## C19: range of `genGuid` and the digest bytes it reads -/

theorem xor_mod_two_pow_eq (a b k : Nat) :
    (a ^^^ b) % 2 ^ k = (a % 2 ^ k) ^^^ (b % 2 ^ k) := by
  apply Nat.eq_of_testBit_eq
  intro i
  simp only [Nat.testBit_mod_two_pow, Nat.testBit_xor]
  by_cases hi : i < k <;> simp [hi]

theorem Uint64_low_mod (d : Digest) :
    Uint64 (lowHalf d) % 2 ^ 32 = leValue ((List.ofFn d).take 4) := by
  have h0 := (d 0).isLt
  have h1 := (d 1).isLt
  have h2 := (d 2).isLt
  have h3 := (d 3).isLt
  rw [Uint64_eq_leValue]
  simp only [List.ofFn_succ, List.ofFn_zero, List.take_succ_cons, List.take_zero, lowHalf,
    leValue]
  show (((d 0).val + 256 * ((d 1).val + 256 * ((d 2).val + 256 * ((d 3).val + 256 * _))))
      % 2 ^ 32)
    = (d 0).val + 256 * ((d 1).val + 256 * ((d 2).val + 256 * ((d 3).val + 256 * 0)))
  omega

theorem Uint64_high_mod (d : Digest) :
    Uint64 (highHalf d) % 2 ^ 32 = leValue (((List.ofFn d).drop 8).take 4) := by
  have h0 := (d 8).isLt
  have h1 := (d 9).isLt
  have h2 := (d 10).isLt
  have h3 := (d 11).isLt
  rw [Uint64_eq_leValue]
  simp only [List.ofFn_succ, List.ofFn_zero, List.take_succ_cons, List.take_zero,
    List.drop_succ_cons, List.drop_zero, highHalf, leValue]
  show (((d 8).val + 256 * ((d 9).val + 256 * ((d 10).val + 256 * ((d 11).val + 256 * _))))
      % 2 ^ 32)
    = (d 8).val + 256 * ((d 9).val + 256 * ((d 10).val + 256 * ((d 11).val + 256 * 0)))
  omega

theorem genGuid_eq_guid32 (md5Sum : GoString → Digest) (m : mapping) (name : GoString) :
    genGuid md5Sum m name = Int.ofNat (guid32 (md5Sum (m.salt ++ name ++ m.salt))) := by
  simp only [genGuid, guid32, xor_mod_two_pow_eq, Uint64_low_mod, Uint64_high_mod]

theorem guid32_congr (d d' : Digest)
    (hd : ∀ i : Fin 16, i.val < 4 ∨ (8 ≤ i.val ∧ i.val < 12) → d' i = d i) :
    guid32 d' = guid32 d := by
  have e0 : d' 0 = d 0 := hd 0 (by decide)
  have e1 : d' 1 = d 1 := hd 1 (by decide)
  have e2 : d' 2 = d 2 := hd 2 (by decide)
  have e3 : d' 3 = d 3 := hd 3 (by decide)
  have e8 : d' 8 = d 8 := hd 8 (by decide)
  have e9 : d' 9 = d 9 := hd 9 (by decide)
  have e10 : d' 10 = d 10 := hd 10 (by decide)
  have e11 : d' 11 = d 11 := hd 11 (by decide)
  simp only [guid32, List.ofFn_succ, List.ofFn_zero, List.take_succ_cons, List.take_zero,
    List.drop_succ_cons, List.drop_zero, leValue]
  show ((d' 0).val + 256 * ((d' 1).val + 256 * ((d' 2).val + 256 * ((d' 3).val + 256 * 0))))
      ^^^ ((d' 8).val + 256 * ((d' 9).val + 256 * ((d' 10).val + 256 * ((d' 11).val + 256 * 0))))
    = ((d 0).val + 256 * ((d 1).val + 256 * ((d 2).val + 256 * ((d 3).val + 256 * 0))))
      ^^^ ((d 8).val + 256 * ((d 9).val + 256 * ((d 10).val + 256 * ((d 11).val + 256 * 0))))
  rw [e0, e1, e2, e3, e8, e9, e10, e11]

/-- C19. For every salt and name, `0 ≤ genGuid name < 2 ^ 32`, and
`genGuid name` is `LE32(d[0..4]) XOR LE32(d[8..12])` for the digest `d` of
`salt ++ name ++ salt`: a digest that agrees with `d` on the bytes 0 to 3 and
8 to 11 gives the same id, whatever its bytes 4 to 7 and 12 to 15 are. -/
theorem genGuid_range_and_bytes (md5Sum : GoString → Digest) (m : mapping)
    (name : GoString) :
    0 ≤ genGuid md5Sum m name ∧ genGuid md5Sum m name < 2 ^ 32 ∧
      genGuid md5Sum m name = Int.ofNat (guid32 (md5Sum (m.salt ++ name ++ m.salt))) ∧
      (∀ md5Sum' : GoString → Digest,
        (∀ i : Fin 16, i.val < 4 ∨ (8 ≤ i.val ∧ i.val < 12) →
          md5Sum' (m.salt ++ name ++ m.salt) i = md5Sum (m.salt ++ name ++ m.salt) i) →
        genGuid md5Sum' m name = genGuid md5Sum m name) := by
  refine ⟨?_, ?_, genGuid_eq_guid32 md5Sum m name, ?_⟩
  · exact Int.ofNat_nonneg _
  · have hlt : (Uint64 (lowHalf (md5Sum (m.salt ++ name ++ m.salt))) ^^^
        Uint64 (highHalf (md5Sum (m.salt ++ name ++ m.salt)))) % 2 ^ 32 < 2 ^ 32 :=
      Nat.mod_lt _ (by decide)
    have hval : genGuid md5Sum m name =
        (((Uint64 (lowHalf (md5Sum (m.salt ++ name ++ m.salt))) ^^^
          Uint64 (highHalf (md5Sum (m.salt ++ name ++ m.salt)))) % 2 ^ 32 : Nat) : Int) := rfl
    rw [hval]
    omega
  · intro md5Sum' hd
    rw [genGuid_eq_guid32, genGuid_eq_guid32, guid32_congr _ _ hd]

/-! ## `strconv.Atoi` and `strconv.Itoa` -/

theorem decimalFrom_cons (acc : Nat) (c : Byte) (cs : GoString) :
    decimalFrom acc (c :: cs) = decimalFrom (acc * 10 + (c.val - 48)) cs := rfl

theorem le_decimalFrom (cs : GoString) (acc : Nat) : acc ≤ decimalFrom acc cs := by
  induction cs generalizing acc with
  | nil => exact Nat.le_refl _
  | cons c cs ih =>
    rw [decimalFrom_cons]
    exact Nat.le_trans (by omega) (ih _)

theorem parseUintLoop_digits (cs : GoString) (acc : Nat) (hacc : acc ≤ 2 ^ 64 - 1)
    (hd : ∀ c ∈ cs, isDigit c = true) :
    parseUintLoop acc cs =
      if decimalFrom acc cs ≤ 2 ^ 64 - 1 then .ok (decimalFrom acc cs) else .outOfRange := by
  induction cs generalizing acc with
  | nil =>
    show UintResult.ok acc = _
    rw [if_pos (by exact hacc)]
    rfl
  | cons c cs ih =>
    have hc : 48 ≤ c.val ∧ c.val ≤ 57 := by
      have := hd c (List.mem_cons_self _ _)
      simpa [isDigit] using this
    have hmono := le_decimalFrom cs (acc * 10 + (c.val - 48))
    rw [decimalFrom_cons]
    unfold parseUintLoop
    rw [if_pos hc]
    by_cases h1 : acc ≥ (2 ^ 64 - 1) / 10 + 1
    · rw [if_pos h1, if_neg (by omega)]
    · rw [if_neg h1]
      by_cases h2 : acc * 10 + (c.val - 48) > 2 ^ 64 - 1
      · simp only [h2, if_true]
        rw [if_neg (by omega)]
      · simp only [h2, if_false]
        exact ih _ (by omega) (fun x hx => hd x (List.mem_cons_of_mem _ hx))

theorem parseUintLoop_badDigit (pre : GoString) (c : Byte) (post : GoString) (acc : Nat)
    (hd : ∀ x ∈ pre, isDigit x = true) (hc : isDigit c = false)
    (hv : decimalFrom acc pre ≤ 2 ^ 64 - 1) :
    parseUintLoop acc (pre ++ c :: post) = .badDigit := by
  induction pre generalizing acc with
  | nil =>
    have hc' : ¬ (48 ≤ c.val ∧ c.val ≤ 57) := by simpa [isDigit] using hc
    show parseUintLoop acc (c :: post) = _
    unfold parseUintLoop
    rw [if_neg hc']
  | cons x pre ih =>
    have hx : 48 ≤ x.val ∧ x.val ≤ 57 := by
      have := hd x (List.mem_cons_self _ _)
      simpa [isDigit] using this
    rw [decimalFrom_cons] at hv
    have hmono := le_decimalFrom pre (acc * 10 + (x.val - 48))
    show parseUintLoop acc (x :: (pre ++ c :: post)) = _
    unfold parseUintLoop
    rw [if_pos hx, if_neg (by omega)]
    simp only [show ¬ (acc * 10 + (x.val - 48) > 2 ^ 64 - 1) by omega, if_false]
    exact ih _ (fun y hy => hd y (List.mem_cons_of_mem _ hy)) hv
theorem isDigit_digitByte (d : Nat) : isDigit (digitByte d) = true := by
  simp only [isDigit, digitByte, decide_eq_true_eq]
  omega

theorem digitsLE_digits (fuel n : Nat) : ∀ c ∈ digitsLE fuel n, isDigit c = true := by
  induction fuel generalizing n with
  | zero => intro c hc; simp [digitsLE] at hc
  | succ fuel ih =>
    intro c hc
    unfold digitsLE at hc
    split at hc
    · rw [List.mem_singleton] at hc
      rw [hc]; exact isDigit_digitByte n
    · rcases List.mem_cons.1 hc with hc | hc
      · rw [hc]; exact isDigit_digitByte n
      · exact ih _ c hc

theorem digitsLE_value (fuel n : Nat) (hn : n < fuel) :
    (digitsLE fuel n).foldr (fun b a => a * 10 + (b.val - 48)) 0 = n := by
  induction fuel generalizing n with
  | zero => omega
  | succ fuel ih =>
    unfold digitsLE
    split
    · simp only [List.foldr_cons, List.foldr_nil, digitByte]
      omega
    · simp only [List.foldr_cons, digitByte]
      rw [ih (n / 10) (by omega)]
      omega

theorem digitsLE_length (fuel n k : Nat) (hk : 1 ≤ k) (hn : n < 10 ^ k) :
    (digitsLE fuel n).length ≤ k := by
  induction fuel generalizing n k with
  | zero => simp [digitsLE]
  | succ fuel ih =>
    unfold digitsLE
    split
    · simpa using hk
    · rename_i h10
      have hk2 : 2 ≤ k := by
        by_contra hlt
        have : k = 1 := by omega
        rw [this] at hn
        omega
      have hdiv : n / 10 < 10 ^ (k - 1) := by
        apply Nat.div_lt_of_lt_mul
        have : 10 ^ k = 10 * 10 ^ (k - 1) := by
          rw [← Nat.pow_succ']
          congr 1
          omega
        omega
      have := ih (n / 10) (k - 1) (by omega) hdiv
      simp only [List.length_cons]
      omega

theorem formatNat_digits (n : Nat) : ∀ c ∈ formatNat n, isDigit c = true := by
  intro c hc
  unfold formatNat at hc
  rw [List.mem_reverse] at hc
  exact digitsLE_digits _ _ c hc

theorem formatNat_ne_nil (n : Nat) : formatNat n ≠ [] := by
  unfold formatNat digitsLE
  split <;> simp

theorem decimalValue_formatNat (n : Nat) : decimalValue (formatNat n) = n := by
  unfold decimalValue decimalFrom formatNat
  rw [List.foldl_reverse]
  exact digitsLE_value (n + 1) n (by omega)

theorem formatNat_length (n k : Nat) (hk : 1 ≤ k) (hn : n < 10 ^ k) :
    (formatNat n).length ≤ k := by
  unfold formatNat
  rw [List.length_reverse]
  exact digitsLE_length _ n k hk hn

theorem Atoi_of_digits (s : GoString) (hne : unsignedPart s ≠ [])
    (hd : ∀ x ∈ unsignedPart s, isDigit x = true) :
    Atoi s =
      if s.head? = some 45 then
        (if decimalValue (unsignedPart s) > 2 ^ 63 then (minInt64, true)
          else (-(decimalValue (unsignedPart s) : Int), false))
      else
        (if decimalValue (unsignedPart s) ≥ 2 ^ 63 then (maxInt64, true)
          else ((decimalValue (unsignedPart s) : Int), false)) := by
  cases s with
  | nil => exact absurd rfl hne
  | cons c rest =>
    have hloop := parseUintLoop_digits (unsignedPart (c :: rest)) 0 (by omega) hd
    have hparse : ParseUint (unsignedPart (c :: rest)) =
        if decimalValue (unsignedPart (c :: rest)) ≤ 2 ^ 64 - 1
        then .ok (decimalValue (unsignedPart (c :: rest))) else .outOfRange := by
      unfold ParseUint
      rw [if_neg hne]
      exact hloop
    have hbody : (if c = 43 ∨ c = 45 then rest else c :: rest) = unsignedPart (c :: rest) := rfl
    unfold Atoi
    simp only [hbody, hparse, List.head?_cons, Option.some.injEq]
    generalize decimalValue (unsignedPart (c :: rest)) = v
    by_cases hneg : c = 45
    · by_cases hbig : v ≤ 18446744073709551615
      · by_cases h63 : 9223372036854775808 < v
        · simp [hneg, hbig, h63]
        · simp [hneg, hbig, h63]
      · have h63 : 9223372036854775808 < v := by omega
        simp [hneg, hbig, h63]
    · by_cases hbig : v ≤ 18446744073709551615
      · by_cases h63 : 9223372036854775808 ≤ v
        · simp [hneg, hbig, h63]
        · simp [hneg, hbig, h63]
      · have h63 : 9223372036854775808 ≤ v := by omega
        simp [hneg, hbig, h63]
theorem Atoi_badFormat (s : GoString)
    (hs : unsignedPart s = [] ∨ ∃ pre c post, unsignedPart s = pre ++ c :: post ∧
      (∀ x ∈ pre, isDigit x = true) ∧ isDigit c = false ∧ decimalValue pre < 2 ^ 64) :
    Atoi s = (0, true) := by
  cases s with
  | nil => rfl
  | cons c rest =>
    have hparse : ParseUint (unsignedPart (c :: rest)) = .badDigit := by
      unfold ParseUint
      rcases hs with hs | ⟨pre, x, post, hsplit, hpre, hx, hv⟩
      · rw [if_pos hs]
      · rw [hsplit, if_neg (by simp)]
        exact parseUintLoop_badDigit pre x post 0 hpre hx (by unfold decimalValue at hv; omega)
    have hbody : (if c = 43 ∨ c = 45 then rest else c :: rest) = unsignedPart (c :: rest) := rfl
    unfold Atoi
    simp only [hbody, hparse]

theorem unsignedPart_of_digits (s : GoString) (hd : ∀ x ∈ s, isDigit x = true) :
    unsignedPart s = s ∧ s.head? ≠ some 45 := by
  cases s with
  | nil => exact ⟨rfl, by simp⟩
  | cons c rest =>
    have hc : 48 ≤ c.val ∧ c.val ≤ 57 := by
      have := hd c (List.mem_cons_self _ _)
      simpa [isDigit] using this
    have h43 : c ≠ 43 := by
      intro hcontra
      rw [hcontra] at hc
      revert hc
      decide
    have h45 : c ≠ 45 := by
      intro hcontra
      rw [hcontra] at hc
      revert hc
      decide
    constructor
    · show (if c = 43 ∨ c = 45 then rest else c :: rest) = c :: rest
      rw [if_neg (by simp [h43, h45])]
    · simp [h45]

theorem Atoi_Itoa (k : Int) (hlo : minInt64 ≤ k) (hhi : k ≤ maxInt64) :
    Atoi (Itoa k) = (k, false) := by
  unfold minInt64 at hlo
  unfold maxInt64 at hhi
  by_cases hk : k < 0
  · have hItoa : Itoa k = (45 : Byte) :: formatNat k.natAbs := by
      unfold Itoa
      rw [if_pos hk]
    have hbody : unsignedPart (Itoa k) = formatNat k.natAbs := by
      rw [hItoa]
      rfl
    have hhead : (Itoa k).head? = some 45 := by rw [hItoa]; rfl
    rw [Atoi_of_digits (Itoa k) (by rw [hbody]; exact formatNat_ne_nil _)
      (by rw [hbody]; exact formatNat_digits _)]
    rw [if_pos hhead, hbody, decimalValue_formatNat, if_neg (by omega)]
    congr 1
    omega
  · have hItoa : Itoa k = formatNat k.natAbs := by
      unfold Itoa
      rw [if_neg hk]
    have hud := unsignedPart_of_digits (formatNat k.natAbs) (formatNat_digits _)
    have hbody : unsignedPart (Itoa k) = formatNat k.natAbs := by
      rw [hItoa]
      exact hud.1
    have hhead : (Itoa k).head? ≠ some 45 := by rw [hItoa]; exact hud.2
    rw [Atoi_of_digits (Itoa k) (by rw [hbody]; exact formatNat_ne_nil _)
      (by rw [hbody]; exact formatNat_digits _)]
    rw [if_neg hhead, hbody, decimalValue_formatNat, if_neg (by omega)]
    congr 1
    omega

theorem Itoa_length (k : Int) (hlo : minInt64 ≤ k) (hhi : k ≤ maxInt64) :
    (Itoa k).length ≤ 20 := by
  unfold minInt64 at hlo
  unfold maxInt64 at hhi
  have hlen := formatNat_length k.natAbs 19 (by omega) (by omega)
  unfold Itoa
  split
  · simp only [List.length_cons]
    omega
  · omega

theorem Itoa_injective (a b : Int) (ha : minInt64 ≤ a ∧ a ≤ maxInt64)
    (hb : minInt64 ≤ b ∧ b ≤ maxInt64) (hab : Itoa a = Itoa b) : a = b := by
  have h1 := Atoi_Itoa a ha.1 ha.2
  have h2 := Atoi_Itoa b hb.1 hb.2
  rw [hab, h2] at h1
  exact ((Prod.mk.injEq _ _ _ _).mp h1).1.symm

/-! ## C11: the name of an id the host does not know -/

/-- C11. For every machine integer `id` that is not a key of `userIDs` and
that the host directory does not know, `lookupUserID id` returns the decimal
string of `id`, which has fewer than 49 bytes and reads back as `id`, and
records it in both user tables; two distinct such ids receive distinct
names. -/
theorem fallback_name (h : Host) (m : mapping) (id : Int) (hc : m.userIDs id = none)
    (hh : (h.LookupId (Itoa id)).1 = none) (hlo : minInt64 ≤ id) (hhi : id ≤ maxInt64) :
    (lookupUserID h m id).1 = Itoa id ∧ (Itoa id).length < 49 ∧
      Atoi (Itoa id) = (id, false) ∧
      (lookupUserID h m id).2.userIDs id = some (Itoa id) ∧
      (lookupUserID h m id).2.usernames (Itoa id) = some id ∧
      (∀ (h' : Host) (m' : mapping) (id' : Int), m'.userIDs id' = none →
        (h'.LookupId (Itoa id')).1 = none → minInt64 ≤ id' → id' ≤ maxInt64 → id' ≠ id →
        (lookupUserID h' m' id').1 ≠ (lookupUserID h m id).1) := by
  have hname : ∀ (h' : Host) (j : Int), (h'.LookupId (Itoa j)).1 = none → minInt64 ≤ j →
      j ≤ maxInt64 → userNameOnMiss h' j = Itoa j := by
    intro h' j hq hjlo hjhi
    have hlen := Itoa_length j hjlo hjhi
    simp only [userNameOnMiss, hq]
    exact cut49_of_le _ (by omega)
  have hlen := Itoa_length id hlo hhi
  rw [lookupUserID_miss h m id hc, hname h id hh hlo hhi]
  refine ⟨rfl, by omega, Atoi_Itoa id hlo hhi, goMap_set_same _ _ _, goMap_set_same _ _ _, ?_⟩
  intro h' m' id' hc' hh' hlo' hhi' hne
  rw [lookupUserID_miss h' m' id' hc', hname h' id' hh' hlo' hhi']
  intro heq
  exact hne (Itoa_injective id' id ⟨hlo', hhi'⟩ ⟨hlo, hhi⟩ heq)

/-- C11 at a concrete input: id 1000 on the empty table against a host
without accounts; the returned name is `1000`. -/
theorem fallback_name_witness :
    (emptyMapping []).userIDs 1000 = none ∧ (noHost.LookupId (Itoa 1000)).1 = none ∧
      minInt64 ≤ 1000 ∧ (1000 : Int) ≤ maxInt64 ∧
      (lookupUserID noHost (emptyMapping []) 1000).1 = [49, 48, 48, 48] :=
  ⟨rfl, rfl, by decide, by decide,
    ((fallback_name noHost (emptyMapping []) 1000 rfl rfl (by decide) (by decide)).1).trans
      (by decide)⟩

/-! ## C18: the uid string of a host record -/

theorem takeWhile_split (l : GoString) (hl : l.all isDigit = false) :
    ∃ c post, l = l.takeWhile isDigit ++ c :: post ∧ isDigit c = false := by
  induction l with
  | nil => simp at hl
  | cons x xs ih =>
    by_cases hx : isDigit x = true
    · have hxs : xs.all isDigit = false := by
        rw [List.all_cons, hx, Bool.true_and] at hl
        exact hl
      obtain ⟨c, post, hsplit, hc⟩ := ih hxs
      refine ⟨c, post, ?_, hc⟩
      rw [List.takeWhile_cons, if_pos hx, List.cons_append, ← hsplit]
    · have hx' : isDigit x = false := by simpa using hx
      refine ⟨x, xs, ?_, hx'⟩
      rw [List.takeWhile_cons, if_neg hx, List.nil_append]

theorem not_numeral_split (s : GoString) (hs : isNumeral s = false) :
    unsignedPart s = [] ∨
      ∃ c post, unsignedPart s = leadingDigits s ++ c :: post ∧ isDigit c = false := by
  unfold isNumeral at hs
  cases hb : unsignedPart s with
  | nil => exact Or.inl rfl
  | cons x xs =>
    right
    rw [hb] at hs
    have hall : (x :: xs).all isDigit = false := by simpa using hs
    unfold leadingDigits
    rw [hb]
    exact takeWhile_split (x :: xs) hall

theorem leadingDigits_digits (s : GoString) : ∀ x ∈ leadingDigits s, isDigit x = true :=
  fun _ hx => List.mem_takeWhile_imp hx

theorem decimalFrom_lt (l : GoString) (acc : Nat) (hd : ∀ x ∈ l, isDigit x = true) :
    decimalFrom acc l < (acc + 1) * 10 ^ l.length := by
  induction l generalizing acc with
  | nil => simp [decimalFrom]
  | cons c cs ih =>
    have hc : 48 ≤ c.val ∧ c.val ≤ 57 := by
      have := hd c (List.mem_cons_self _ _)
      simpa [isDigit] using this
    have hlt := ih (acc * 10 + (c.val - 48)) (fun x hx => hd x (List.mem_cons_of_mem _ hx))
    rw [decimalFrom_cons]
    have hle : (acc * 10 + (c.val - 48) + 1) * 10 ^ cs.length
        ≤ ((acc + 1) * 10) * 10 ^ cs.length :=
      Nat.mul_le_mul_right _ (by omega)
    have hpow : (acc + 1) * 10 ^ (c :: cs).length = ((acc + 1) * 10) * 10 ^ cs.length := by
      rw [List.length_cons, Nat.pow_succ, Nat.mul_assoc, Nat.mul_comm 10]
    omega

theorem decimalValue_lt_of_length (l : GoString) (hd : ∀ x ∈ l, isDigit x = true)
    (hlen : l.length ≤ 19) : decimalValue l < 2 ^ 64 := by
  have hlt := decimalFrom_lt l 0 hd
  have hpow : 10 ^ l.length ≤ 10 ^ 19 := Nat.pow_le_pow_right (by omega) hlen
  unfold decimalValue
  omega

/-- C18. For every name that is not a key of `usernames` and for which the
host returns a user record, `lookupUser` returns the first value of `Atoi` on
the uid string of the record, whether or not `Atoi` reports an error, and
records it in both user tables. When the uid string is the decimal
representation of the machine integer `k`, that value is `k`. When the uid
string is not an optionally signed, non-empty sequence of decimal digits, the
value is 0 and the error `Atoi` reports is dropped; this part is stated for the
uid strings a host directory hands out (a decimal uid, a security identifier,
a user name), whose digits before the first byte that is no digit denote a
number below `2 ^ 64`, as they do whenever there are fewer than 20 of them. -/
theorem host_id_parsing (md5Sum : GoString → Digest) (h : Host) (m : mapping)
    (name : GoString) (u : User) (hc : m.usernames name = none)
    (hu : (h.Lookup name).1 = some u) :
    ((lookupUser md5Sum h m name).1 = (Atoi u.Uid).1 ∧
      (lookupUser md5Sum h m name).2.usernames name = some (lookupUser md5Sum h m name).1 ∧
      (lookupUser md5Sum h m name).2.userIDs (lookupUser md5Sum h m name).1 = some name) ∧
    (∀ k : Int, minInt64 ≤ k → k ≤ maxInt64 → u.Uid = Itoa k →
      (lookupUser md5Sum h m name).1 = k ∧
        (lookupUser md5Sum h m name).2.usernames name = some k ∧
        (lookupUser md5Sum h m name).2.userIDs k = some name) ∧
    (isNumeral u.Uid = false → decimalValue (leadingDigits u.Uid) < 2 ^ 64 →
      (lookupUser md5Sum h m name).1 = 0 ∧ (Atoi u.Uid).2 = true ∧
        (lookupUser md5Sum h m name).2.usernames name = some 0 ∧
        (lookupUser md5Sum h m name).2.userIDs 0 = some name) ∧
    ((leadingDigits u.Uid).length ≤ 19 → decimalValue (leadingDigits u.Uid) < 2 ^ 64) := by
  have hid : userIdOnMiss md5Sum h m name = (Atoi u.Uid).1 := by simp [userIdOnMiss, hu]
  rw [lookupUser_miss md5Sum h m name hc, hid]
  refine ⟨⟨rfl, goMap_set_same _ _ _, goMap_set_same _ _ _⟩, ?_, ?_, ?_⟩
  · intro k hlo hhi hk
    have hval : (Atoi u.Uid).1 = k := by rw [hk, Atoi_Itoa k hlo hhi]
    rw [hval]
    exact ⟨rfl, goMap_set_same _ _ _, goMap_set_same _ _ _⟩
  · intro hnum hv
    have hbad : Atoi u.Uid = (0, true) := by
      apply Atoi_badFormat
      rcases not_numeral_split u.Uid hnum with hempty | ⟨c, post, hsplit, hcnd⟩
      · exact Or.inl hempty
      · exact Or.inr ⟨leadingDigits u.Uid, c, post, hsplit, leadingDigits_digits u.Uid, hcnd, hv⟩
    rw [hbad]
    exact ⟨rfl, rfl, goMap_set_same m.usernames name 0, goMap_set_same m.userIDs 0 name⟩
  · intro hlen
    exact decimalValue_lt_of_length _ (leadingDigits_digits u.Uid) hlen

/-- C18 at concrete inputs: on the empty table, the name `a` against
`twinHost`, whose record for `a` has the uid string `1`, resolves to 1; the
name `w` against `sidHost`, whose record has the uid string `S-1-5-18`,
resolves to 0. -/
theorem host_id_parsing_witness :
    ((emptyMapping []).usernames [97] = none ∧
      (twinHost.Lookup [97]).1 = some (mkUser [49] [97]) ∧
      (lookupUser zeroSum twinHost (emptyMapping []) [97]).1 = 1) ∧
    ((emptyMapping []).usernames [119] = none ∧
      (sidHost.Lookup [119]).1 = some (mkUser [83, 45, 49, 45, 53, 45, 49, 56] [119]) ∧
      isNumeral [83, 45, 49, 45, 53, 45, 49, 56] = false ∧
      (lookupUser zeroSum sidHost (emptyMapping []) [119]).1 = 0) :=
  ⟨⟨rfl, rfl,
      ((host_id_parsing zeroSum twinHost (emptyMapping []) [97] (mkUser [49] [97]) rfl rfl).2.1
        1 (by decide) (by decide) (by decide)).1⟩,
    ⟨rfl, rfl, by decide,
      ((host_id_parsing zeroSum sidHost (emptyMapping []) [119]
        (mkUser [83, 45, 49, 45, 53, 45, 49, 56] [119]) rfl rfl).2.2.1
        (by decide) (by decide)).1⟩⟩

/-! ## C4: forward and reverse tables along a call sequence -/

theorem lastIdOf_append_list (a b : List pwent) (n : GoString) :
    lastIdOf (a ++ b) n =
      match lastIdOf b n with
      | some i => some i
      | none => lastIdOf a n := by
  induction b using List.reverseRecOn with
  | nil => rw [List.append_nil]; rfl
  | append_singleton bs u ih =>
    rw [← List.append_assoc, lastIdOf_append, lastIdOf_append, ih]
    by_cases hu : u.name = n
    · rw [if_pos hu, if_pos hu]
    · rw [if_neg hu, if_neg hu]

theorem lastNameOf_append_list (a b : List pwent) (i : Int) :
    lastNameOf (a ++ b) i =
      match lastNameOf b i with
      | some n => some n
      | none => lastNameOf a i := by
  induction b using List.reverseRecOn with
  | nil => rw [List.append_nil]; rfl
  | append_singleton bs u ih =>
    rw [← List.append_assoc, lastNameOf_append, lastNameOf_append, ih]
    by_cases hu : u.id = i
    · rw [if_pos hu, if_pos hu]
    · rw [if_neg hu, if_neg hu]

theorem lastIdOf_some_split (l : List pwent) (n : GoString) (i : Int)
    (hl : lastIdOf l n = some i) :
    ∃ pre post, l = pre ++ ⟨i, n⟩ :: post ∧ ∀ u ∈ post, u.name ≠ n := by
  induction l using List.reverseRecOn with
  | nil => cases hl
  | append_singleton us u ih =>
    rw [lastIdOf_append] at hl
    by_cases hu : u.name = n
    · rw [if_pos hu] at hl
      have hid : u.id = i := Option.some.inj hl
      refine ⟨us, [], ?_, fun v hv => by cases hv⟩
      cases u
      simp only at hu hid
      rw [hu, hid]
    · rw [if_neg hu] at hl
      obtain ⟨pre, post, hsplit, hpost⟩ := ih hl
      refine ⟨pre, post ++ [u], by rw [hsplit]; simp, ?_⟩
      intro v hv
      rcases List.mem_append.1 hv with hv | hv
      · exact hpost v hv
      · rw [List.mem_singleton] at hv
        rw [hv]
        exact hu

theorem lastNameOf_some_split (l : List pwent) (i : Int) (n : GoString)
    (hl : lastNameOf l i = some n) :
    ∃ pre post, l = pre ++ ⟨i, n⟩ :: post ∧ ∀ u ∈ post, u.id ≠ i := by
  induction l using List.reverseRecOn with
  | nil => cases hl
  | append_singleton us u ih =>
    rw [lastNameOf_append] at hl
    by_cases hu : u.id = i
    · rw [if_pos hu] at hl
      have hname : u.name = n := Option.some.inj hl
      refine ⟨us, [], ?_, fun v hv => by cases hv⟩
      cases u
      simp only at hu hname
      rw [hu, hname]
    · rw [if_neg hu] at hl
      obtain ⟨pre, post, hsplit, hpost⟩ := ih hl
      refine ⟨pre, post ++ [u], by rw [hsplit]; simp, ?_⟩
      intro v hv
      rcases List.mem_append.1 hv with hv | hv
      · exact hpost v hv
      · rw [List.mem_singleton] at hv
        rw [hv]
        exact hu

theorem last_linked (l : List pwent) (n : GoString) (i : Int) (hl : lastIdOf l n = some i) :
    lastNameOf l i = some n ∨
      ∃ pre post u, l = pre ++ ⟨i, n⟩ :: post ∧ u ∈ post ∧ u.id = i ∧ u.name ≠ n ∧
        lastNameOf l i = some u.name := by
  obtain ⟨pre, post, hsplit, hpost⟩ := lastIdOf_some_split l n i hl
  have hlast : lastNameOf l i =
      match lastNameOf post i with
      | some x => some x
      | none => some n := by
    rw [hsplit, ← List.singleton_append, ← List.append_assoc, lastNameOf_append_list,
      lastNameOf_append, if_pos rfl]
  cases hp : lastNameOf post i with
  | none =>
    rw [hp] at hlast
    exact Or.inl hlast
  | some x =>
    rw [hp] at hlast
    obtain ⟨pre', post', hsplit', _⟩ := lastNameOf_some_split post i x hp
    have hmem : (⟨i, x⟩ : pwent) ∈ post := by rw [hsplit']; simp
    exact Or.inr ⟨pre, post, ⟨i, x⟩, hsplit, hmem, rfl, hpost _ hmem, hlast⟩

theorem last_linked_rev (l : List pwent) (i : Int) (n : GoString)
    (hl : lastNameOf l i = some n) :
    lastIdOf l n = some i ∨
      ∃ pre post u, l = pre ++ ⟨i, n⟩ :: post ∧ u ∈ post ∧ u.name = n ∧ u.id ≠ i ∧
        lastIdOf l n = some u.id := by
  obtain ⟨pre, post, hsplit, hpost⟩ := lastNameOf_some_split l i n hl
  have hlast : lastIdOf l n =
      match lastIdOf post n with
      | some x => some x
      | none => some i := by
    rw [hsplit, ← List.singleton_append, ← List.append_assoc, lastIdOf_append_list,
      lastIdOf_append, if_pos rfl]
  cases hp : lastIdOf post n with
  | none =>
    rw [hp] at hlast
    exact Or.inl hlast
  | some x =>
    rw [hp] at hlast
    obtain ⟨pre', post', hsplit', _⟩ := lastIdOf_some_split post n x hp
    have hmem : (⟨x, n⟩ : pwent) ∈ post := by rw [hsplit']; simp
    exact Or.inr ⟨pre, post, ⟨x, n⟩, hsplit, hmem, rfl, hpost _ hmem, hlast⟩

theorem step_eq_update (md5Sum : GoString → Digest) (m : mapping) (c : Call) :
    step md5Sum m c = update m (userWrites md5Sum m c) (groupWrites md5Sum m c) := by
  cases c with
  | update uids gids => rfl
  | lookupUser h name =>
    show (lookupUser md5Sum h m name).2 = _
    cases hc : m.usernames name with
    | some i => rw [lookupUser_hit md5Sum h m name i hc]; simp only [userWrites, hc]; rfl
    | none => rw [lookupUser_miss md5Sum h m name hc]; simp only [userWrites, hc]; rfl
  | lookupGroup h name =>
    show (lookupGroup md5Sum h m name).2 = _
    cases hc : m.groups name with
    | some i => rw [lookupGroup_hit md5Sum h m name i hc]; simp only [groupWrites, hc]; rfl
    | none => rw [lookupGroup_miss md5Sum h m name hc]; simp only [groupWrites, hc]; rfl
  | lookupUserID h id =>
    show (lookupUserID h m id).2 = _
    cases hc : m.userIDs id with
    | some n => rw [lookupUserID_hit h m id n hc]; simp only [userWrites, hc]; rfl
    | none => rw [lookupUserID_miss h m id hc]; simp only [userWrites, hc]; rfl
  | lookupGroupID h id =>
    show (lookupGroupID h m id).2 = _
    cases hc : m.groupIDs id with
    | some n => rw [lookupGroupID_hit h m id n hc]; simp only [groupWrites, hc]; rfl
    | none => rw [lookupGroupID_miss h m id hc]; simp only [groupWrites, hc]; rfl

theorem run_usernames (md5Sum : GoString → Digest) (cs : List Call) (m : mapping)
    (n : GoString) :
    (run md5Sum m cs).usernames n =
      match lastIdOf (userLog md5Sum m cs) n with
      | some i => some i
      | none => m.usernames n := by
  induction cs generalizing m with
  | nil => rfl
  | cons c cs ih =>
    show (run md5Sum (step md5Sum m c) cs).usernames n = _
    rw [ih (step md5Sum m c)]
    show _ = match lastIdOf (userWrites md5Sum m c ++ userLog md5Sum (step md5Sum m c) cs) n with
      | some i => some i
      | none => m.usernames n
    rw [lastIdOf_append_list, step_eq_update, update_usernames]
    cases lastIdOf (userLog md5Sum (update m (userWrites md5Sum m c) (groupWrites md5Sum m c)) cs) n
      <;> rfl

theorem run_userIDs (md5Sum : GoString → Digest) (cs : List Call) (m : mapping) (i : Int) :
    (run md5Sum m cs).userIDs i =
      match lastNameOf (userLog md5Sum m cs) i with
      | some n => some n
      | none => m.userIDs i := by
  induction cs generalizing m with
  | nil => rfl
  | cons c cs ih =>
    show (run md5Sum (step md5Sum m c) cs).userIDs i = _
    rw [ih (step md5Sum m c)]
    show _ = match lastNameOf (userWrites md5Sum m c ++ userLog md5Sum (step md5Sum m c) cs) i
      with
      | some n => some n
      | none => m.userIDs i
    rw [lastNameOf_append_list, step_eq_update, update_userIDs]
    cases lastNameOf
      (userLog md5Sum (update m (userWrites md5Sum m c) (groupWrites md5Sum m c)) cs) i <;> rfl

theorem run_groups (md5Sum : GoString → Digest) (cs : List Call) (m : mapping)
    (n : GoString) :
    (run md5Sum m cs).groups n =
      match lastIdOf (groupLog md5Sum m cs) n with
      | some i => some i
      | none => m.groups n := by
  induction cs generalizing m with
  | nil => rfl
  | cons c cs ih =>
    show (run md5Sum (step md5Sum m c) cs).groups n = _
    rw [ih (step md5Sum m c)]
    show _ = match lastIdOf (groupWrites md5Sum m c ++ groupLog md5Sum (step md5Sum m c) cs) n
      with
      | some i => some i
      | none => m.groups n
    rw [lastIdOf_append_list, step_eq_update, update_groups]
    cases lastIdOf
      (groupLog md5Sum (update m (userWrites md5Sum m c) (groupWrites md5Sum m c)) cs) n <;> rfl

theorem run_groupIDs (md5Sum : GoString → Digest) (cs : List Call) (m : mapping) (i : Int) :
    (run md5Sum m cs).groupIDs i =
      match lastNameOf (groupLog md5Sum m cs) i with
      | some n => some n
      | none => m.groupIDs i := by
  induction cs generalizing m with
  | nil => rfl
  | cons c cs ih =>
    show (run md5Sum (step md5Sum m c) cs).groupIDs i = _
    rw [ih (step md5Sum m c)]
    show _ = match lastNameOf (groupWrites md5Sum m c ++ groupLog md5Sum (step md5Sum m c) cs) i
      with
      | some n => some n
      | none => m.groupIDs i
    rw [lastNameOf_append_list, step_eq_update, update_groupIDs]
    cases lastNameOf
      (groupLog md5Sum (update m (userWrites md5Sum m c) (groupWrites md5Sum m c)) cs) i <;> rfl

/-- C4, as stated, fails. After `update [(1, a), (1, b)]` on the empty table
`usernames[a] = 1` while `userIDs[1] = b`; after `update [(1, a), (2, a)]`
`userIDs[1] = a` while `usernames[a] = 2`; and after `lookupUser a`,
`lookupUser b` against a host on which both users have uid 1,
`usernames[a] = 1` while `userIDs[1] = b`. -/
theorem forward_reverse_iff_counterexample :
    ((run zeroSum (emptyMapping []) [Call.update sameIdSeeds []]).usernames [97] = some 1 ∧
      (run zeroSum (emptyMapping []) [Call.update sameIdSeeds []]).userIDs 1 = some [98]) ∧
    ((run zeroSum (emptyMapping []) [Call.update sameNameSeeds []]).userIDs 1 = some [97] ∧
      (run zeroSum (emptyMapping []) [Call.update sameNameSeeds []]).usernames [97] = some 2) ∧
    ((run zeroSum (emptyMapping [])
        [Call.lookupUser twinHost [97], Call.lookupUser twinHost [98]]).usernames [97] = some 1 ∧
      (run zeroSum (emptyMapping [])
        [Call.lookupUser twinHost [97], Call.lookupUser twinHost [98]]).userIDs 1 = some [98]) := by
  decide

/-- C4, amended. Starting from the empty table, after any finite sequence of
`update`, `lookupUser`, `lookupGroup`, `lookupUserID` and `lookupGroupID` calls
against any host directories, the user tables are the last-write-wins record
of the pairs the calls wrote: `usernames[n]` is the id of the last pair
written with the name `n`, `userIDs[i]` is the name of the last pair written
with the id `i`, and a key no pair carried is absent. Hence, when
`usernames[n] = i`, either `userIDs[i] = n` or `userIDs[i]` is the name, other
than `n`, of a pair with id `i` written after the last pair named `n`; and
when `userIDs[i] = n`, either `usernames[n] = i` or `usernames[n]` is the id,
other than `i`, of a pair named `n` written after the last pair with id `i`.
The same holds for `groups` and `groupIDs`. -/
theorem forward_reverse_linked (md5Sum : GoString → Digest) (salt : GoString)
    (cs : List Call) :
    ((∀ n, (run md5Sum (emptyMapping salt) cs).usernames n
          = lastIdOf (userLog md5Sum (emptyMapping salt) cs) n) ∧
      (∀ i, (run md5Sum (emptyMapping salt) cs).userIDs i
          = lastNameOf (userLog md5Sum (emptyMapping salt) cs) i) ∧
      (∀ n, (run md5Sum (emptyMapping salt) cs).groups n
          = lastIdOf (groupLog md5Sum (emptyMapping salt) cs) n) ∧
      (∀ i, (run md5Sum (emptyMapping salt) cs).groupIDs i
          = lastNameOf (groupLog md5Sum (emptyMapping salt) cs) i)) ∧
    ((∀ n i, (run md5Sum (emptyMapping salt) cs).usernames n = some i →
        (run md5Sum (emptyMapping salt) cs).userIDs i = some n ∨
          ∃ pre post u, userLog md5Sum (emptyMapping salt) cs = pre ++ ⟨i, n⟩ :: post ∧
            u ∈ post ∧ u.id = i ∧ u.name ≠ n ∧
            (run md5Sum (emptyMapping salt) cs).userIDs i = some u.name) ∧
      (∀ i n, (run md5Sum (emptyMapping salt) cs).userIDs i = some n →
        (run md5Sum (emptyMapping salt) cs).usernames n = some i ∨
          ∃ pre post u, userLog md5Sum (emptyMapping salt) cs = pre ++ ⟨i, n⟩ :: post ∧
            u ∈ post ∧ u.name = n ∧ u.id ≠ i ∧
            (run md5Sum (emptyMapping salt) cs).usernames n = some u.id) ∧
      (∀ n i, (run md5Sum (emptyMapping salt) cs).groups n = some i →
        (run md5Sum (emptyMapping salt) cs).groupIDs i = some n ∨
          ∃ pre post g, groupLog md5Sum (emptyMapping salt) cs = pre ++ ⟨i, n⟩ :: post ∧
            g ∈ post ∧ g.id = i ∧ g.name ≠ n ∧
            (run md5Sum (emptyMapping salt) cs).groupIDs i = some g.name) ∧
      (∀ i n, (run md5Sum (emptyMapping salt) cs).groupIDs i = some n →
        (run md5Sum (emptyMapping salt) cs).groups n = some i ∨
          ∃ pre post g, groupLog md5Sum (emptyMapping salt) cs = pre ++ ⟨i, n⟩ :: post ∧
            g ∈ post ∧ g.name = n ∧ g.id ≠ i ∧
            (run md5Sum (emptyMapping salt) cs).groups n = some g.id)) := by
  have h1 : ∀ n, (run md5Sum (emptyMapping salt) cs).usernames n
      = lastIdOf (userLog md5Sum (emptyMapping salt) cs) n := by
    intro n
    rw [run_usernames]
    cases lastIdOf (userLog md5Sum (emptyMapping salt) cs) n <;> rfl
  have h2 : ∀ i, (run md5Sum (emptyMapping salt) cs).userIDs i
      = lastNameOf (userLog md5Sum (emptyMapping salt) cs) i := by
    intro i
    rw [run_userIDs]
    cases lastNameOf (userLog md5Sum (emptyMapping salt) cs) i <;> rfl
  have h3 : ∀ n, (run md5Sum (emptyMapping salt) cs).groups n
      = lastIdOf (groupLog md5Sum (emptyMapping salt) cs) n := by
    intro n
    rw [run_groups]
    cases lastIdOf (groupLog md5Sum (emptyMapping salt) cs) n <;> rfl
  have h4 : ∀ i, (run md5Sum (emptyMapping salt) cs).groupIDs i
      = lastNameOf (groupLog md5Sum (emptyMapping salt) cs) i := by
    intro i
    rw [run_groupIDs]
    cases lastNameOf (groupLog md5Sum (emptyMapping salt) cs) i <;> rfl
  refine ⟨⟨h1, h2, h3, h4⟩, ?_, ?_, ?_, ?_⟩
  · intro n i hn
    rw [h1] at hn
    rw [h2]
    exact last_linked _ n i hn
  · intro i n hi
    rw [h2] at hi
    rw [h1]
    exact last_linked_rev _ i n hi
  · intro n i hn
    rw [h3] at hn
    rw [h4]
    exact last_linked _ n i hn
  · intro i n hi
    rw [h4] at hi
    rw [h3]
    exact last_linked_rev _ i n hi

/-- C4, amended, at a concrete input: `lookupUser a` and `lookupUser b`
against `twinHost` write the pairs `(1, a)` and `(1, b)`; `userIDs[1]` is the
name of the last pair with id 1, `b`. -/
theorem forward_reverse_linked_witness :
    userLog zeroSum (emptyMapping [])
        [Call.lookupUser twinHost [97], Call.lookupUser twinHost [98]]
        = [⟨1, [97]⟩, ⟨1, [98]⟩] ∧
      (run zeroSum (emptyMapping [])
        [Call.lookupUser twinHost [97], Call.lookupUser twinHost [98]]).userIDs 1
        = lastNameOf (userLog zeroSum (emptyMapping [])
          [Call.lookupUser twinHost [97], Call.lookupUser twinHost [98]]) 1 ∧
      lastNameOf (userLog zeroSum (emptyMapping [])
        [Call.lookupUser twinHost [97], Call.lookupUser twinHost [98]]) 1 = some [98] :=
  ⟨by decide,
    (forward_reverse_linked zeroSum []
      [Call.lookupUser twinHost [97], Call.lookupUser twinHost [98]]).1.2.1 1,
    by decide⟩

end Guid
